import Mathlib

/-!
Verification development for the quic-lab QUIC/HTTP-3 measurement engine.

The Rust sources are embedded shallowly:
 * byte buffers are `List Char` (one `Char` per byte; all data of interest is
   ASCII),
 * `serde_json::Value` is the inductive `Json` below; its maps are BTreeMaps
   in serde_json's default configuration, so objects are kept as key-sorted
   association lists and insertion is sorted insertion,
 * `f64` time values are modelled as rationals (`ℚ`),
 * filesystem effects are explicit: an association list from file name to a
   list of appended chunks, plus explicit operation traces where a claim is
   about the discipline of the operations themselves,
 * external libraries (tquic, serde_json's parser, DNS, the OS) enter as
   parameters of the embedded functions.

Each embedded definition cites the Rust item it was translated from.
-/

/-- ASCII record separator, `RS = 0x1E` (src/crates/core/src/qlog.rs). -/
def RSc : Char := Char.ofNat 30

/-- ASCII line feed, `LF = 0x0A` (src/crates/core/src/qlog.rs). -/
def LFc : Char := Char.ofNat 10

/-- `memmem` from src/crates/core/src/qlog.rs (lines 193-198): substring
search; `false` for an empty needle or a haystack shorter than the needle.
The Rust code tests every window of `hay` of the needle's length; this
recursion tests `needle.isPrefixOf` at every suffix long enough to hold it,
which enumerates exactly those windows. -/
def memmem : List Char → List Char → Bool
  | _, [] => false
  | [], _ :: _ => false
  | a :: hay, n :: needle =>
      if (a :: hay).length < (n :: needle).length then false
      else (n :: needle).isPrefixOf (a :: hay) || memmem hay (n :: needle)

/-- The quoted-key needle `"qlog_format"` used by the header detector. -/
def qfNeedle : List Char := "\"qlog_format\"".data

/-- The quoted-key needle `"file_schema"` used by the header detector. -/
def fsNeedle : List Char := "\"file_schema\"".data

/-- `is_header_frame` from src/crates/core/src/qlog.rs (lines 183-191):
a frame is treated as a JSON-SEQ file header when it starts with `RS` and
one of the two quoted key names occurs in its first `64 * 1024` bytes
(`let max = frame.len().min(64 * 1024)`; `List.take` clamps the same way). -/
def is_header_frame (frame : List Char) : Bool :=
  if frame.head? ≠ some RSc then false
  else
    let s := frame.take (64 * 1024)
    memmem s qfNeedle || memmem s fsNeedle

/-- `serde_json::Value`. Numbers are rationals (the claims under study never
depend on binary floating-point artefacts of a number). Objects are
association lists kept sorted by key, matching serde_json's default
`Map<String, Value> = BTreeMap`. -/
inductive Json where
  | null
  | bool (b : Bool)
  | num (q : ℚ)
  | str (s : String)
  | arr (elems : List Json)
  | obj (fields : List (String × Json))

/-- `Map::get` on a (sorted) serde_json object. -/
def objGet (fields : List (String × Json)) (k : String) : Option Json :=
  match fields with
  | [] => none
  | (k', v) :: rest => if k' = k then some v else objGet rest k

/-- Byte-wise lexicographic strict order on characters (ASCII keys). -/
def charLtB (a b : Char) : Bool := a.toNat < b.toNat

/-- Byte-wise lexicographic strict order on key lists — the order `BTreeMap`
uses for `String` keys. -/
def listLtB : List Char → List Char → Bool
  | [], [] => false
  | [], _ :: _ => true
  | _ :: _, [] => false
  | a :: as, b :: bs =>
      if charLtB a b then true
      else if charLtB b a then false
      else listLtB as bs

def strLtB (a b : String) : Bool := listLtB a.data b.data

/-- `Map::insert` on a BTreeMap-backed object: sorted insertion, replacing an
existing binding for the key. -/
def objInsert (fields : List (String × Json)) (k : String) (v : Json) :
    List (String × Json) :=
  match fields with
  | [] => [(k, v)]
  | (k', v') :: rest =>
      if strLtB k k' then (k, v) :: (k', v') :: rest
      else if k = k' then (k, v) :: rest
      else (k', v') :: objInsert rest k v

/-- `Map::remove` on a serde_json object (ordering is preserved). -/
def objRemove (fields : List (String × Json)) (k : String) :
    List (String × Json) :=
  fields.filter (fun kv => !(kv.1 = k : Bool))

/-- `Value::get(k)`: key lookup, `None` on non-objects. -/
def jGet : Json → String → Option Json
  | .obj fields, k => objGet fields k
  | _, _ => none

/-- `Value::as_str`. -/
def jAsStr : Json → Option String
  | .str s => some s
  | _ => none

/-- `Value::as_f64` (total on our rational numbers). -/
def jAsNum : Json → Option ℚ
  | .num q => some q
  | _ => none

/-- `obj.insert(k, v)` guarded by `as_object_mut`: non-objects are returned
unchanged, mirroring `if let Some(obj) = v.as_object_mut() { ... }`. -/
def jInsertIfObj (v : Json) (k : String) (x : Json) : Json :=
  match v with
  | .obj fields => .obj (objInsert fields k x)
  | _ => v

/-- serde_json string escaping for one character, restricted to the escapes
our inputs can hit (quote and backslash; the development never serialises
control characters inside strings). -/
def escChar (c : Char) : List Char :=
  if c = '"' then ['\\', '"']
  else if c = '\\' then ['\\', '\\']
  else [c]

/-- Escape a whole string body. -/
def escapeList (s : List Char) : List Char :=
  s.flatMap escChar

/-- Render a rational the way this development prints JSON numbers: integers
as their decimal digits, non-integers as `num/den`. (serde_json prints f64s
in decimal; no theorem below depends on the digits of a non-integer.) -/
def numRepr (q : ℚ) : List Char :=
  if q.den = 1 then (toString q.num).data
  else (toString q.num ++ "/" ++ toString q.den).data

mutual
/-- `serde_json::to_writer` / `to_vec` on a `Value` (compact form, object
fields in stored — i.e. BTreeMap key — order). -/
def serializeJson : Json → List Char
  | .null => "null".data
  | .bool true => "true".data
  | .bool false => "false".data
  | .num q => numRepr q
  | .str s => '"' :: (escapeList s.data ++ ['"'])
  | .arr xs => '\x5b' :: (serializeArr xs ++ [']'])
  | .obj fields => '\x7b' :: (serializeObj fields ++ ['\x7d'])

/-- Serialise array elements, comma separated. -/
def serializeArr : List Json → List Char
  | [] => []
  | [x] => serializeJson x
  | x :: y :: xs => serializeJson x ++ ',' :: serializeArr (y :: xs)

/-- Serialise object entries, comma separated. -/
def serializeObj : List (String × Json) → List Char
  | [] => []
  | [(k, v)] => '"' :: (escapeList k.data ++ '"' :: ':' :: serializeJson v)
  | (k, v) :: kv :: rest =>
      ('"' :: (escapeList k.data ++ '"' :: ':' :: serializeJson v)) ++
        ',' :: serializeObj (kv :: rest)
end

/-! ## Rotating writer (src/crates/core/src/rotate.rs)

The directory is an association list from file name to the list of chunks
appended to that file, in append order.  Each `write(buf)` of the Rust code
is one `write_all` of the whole buffer, so a chunk is exactly one buffer.
The `NewFileHook` is the list of chunks it writes into a fresh empty file. -/

/-- A buffer handed to one `write` call. -/
abbrev Chunk := List Char

/-- Directory contents: file name to appended chunks. -/
abbrev FsM := List (String × List Chunk)

/-- Filesystem operations, recorded where a claim is about their order. -/
inductive RotOp where
  | removeFile (name : String)
  | renameFile (src dst : String)
  | createFile (name : String)
  deriving DecidableEq, Repr

/-- Look a file up by name. -/
def fsLookup (fs : FsM) (n : String) : Option (List Chunk) :=
  (fs.find? (fun e => e.1 = n)).map (·.2)

/-- `Path::exists`. -/
def fsMem (fs : FsM) (n : String) : Bool :=
  (fs.find? (fun e => e.1 = n)).isSome

/-- `fs::remove_file`. -/
def fsRemove (fs : FsM) (n : String) : FsM :=
  fs.filter (fun e => !(e.1 = n : Bool))

/-- Bind a name to contents (replacing any existing binding). -/
def fsSet (fs : FsM) (n : String) (v : List Chunk) : FsM :=
  (n, v) :: fsRemove fs n

/-- Append one chunk to a file (creating it when absent). -/
def fsAppend (fs : FsM) (n : String) (c : Chunk) : FsM :=
  fsSet fs n ((fsLookup fs n).getD [] ++ [c])

/-- Total byte size of a file's chunks (`file.metadata().len()`). -/
def chunksLen (cs : List Chunk) : ℕ :=
  (cs.map List.length).sum

/-- `s.parse::<u64>()` restricted to plain digit strings (the numeric
suffixes the writer itself produces). -/
def parseNatDigits (s : List Char) : Option ℕ :=
  if s ≠ [] ∧ s.all Char.isDigit then
    some (s.foldl (fun acc c => 10 * acc + (c.toNat - 48)) 0)
  else none

/-- Suffix scan of `RotatingWriter::new` (rotate.rs lines 37-48): the largest
`i` over directory entries named `<base>.<i>`. -/
def scanMaxIdx (fs : FsM) (base : String) : ℕ :=
  fs.foldl
    (fun maxIdx e =>
      if (base ++ ".").data.isPrefixOf e.1.data then
        match parseNatDigits (e.1.data.drop (base ++ ".").data.length) with
        | some i => max maxIdx i
        | none => maxIdx
      else maxIdx)
    0

/-- `RotatingWriter` state (rotate.rs lines 14-24).  `headerChunks` is what
the optional `NewFileHook` writes into a fresh empty file (`[]` for no
hook / a hook that writes nothing). -/
structure RotWriter where
  base : String
  maxBytes : ℕ
  size : ℕ
  nextIndex : ℕ
  headerChunks : List Chunk
  deriving Repr

/-- `RotatingWriter::new` (rotate.rs lines 26-72): discover the next index,
open-or-create the base file, and run the hook only when the file is empty. -/
def RotWriter.new (fs : FsM) (base : String) (maxBytes : ℕ)
    (headerChunks : List Chunk) : FsM × RotWriter :=
  let nextIndex := scanMaxIdx fs base + 1
  let fs := if fsMem fs base then fs else fsSet fs base []
  let size := chunksLen ((fsLookup fs base).getD [])
  let (fs, size) :=
    if size = 0 then
      (fsSet fs base headerChunks, chunksLen headerChunks)
    else (fs, size)
  (fs, { base, maxBytes, size, nextIndex, headerChunks })


/-- `RotatingWriter::rotate` (rotate.rs lines 79-100): when the active file
exists, delete a stale `<base>.<next_index>` target, rename the active file
onto it and bump the index; then create a fresh active file and run the
hook on it.  The returned trace records the operation order. -/
def RotWriter.rotate (fs : FsM) (w : RotWriter) : FsM × RotWriter × List RotOp :=
  if fsMem fs w.base then
    let numbered := w.base ++ "." ++ toString w.nextIndex
    let fs1 := if fsMem fs numbered then fsRemove fs numbered else fs
    let ops1 : List RotOp :=
      if fsMem fs numbered then [.removeFile numbered] else []
    let fs2 := fsSet (fsRemove fs1 w.base) numbered ((fsLookup fs1 w.base).getD [])
    (fsSet fs2 w.base w.headerChunks,
     { w with nextIndex := w.nextIndex + 1, size := chunksLen w.headerChunks },
     ops1 ++ [.renameFile w.base numbered, .createFile w.base])
  else
    (fsSet fs w.base w.headerChunks,
     { w with size := chunksLen w.headerChunks },
     [.createFile w.base])

/-- `<Write for RotatingWriter>::write` (rotate.rs lines 103-120): empty
buffers are a no-op; when the write would push the active file past
`max_bytes` the writer rotates first; the whole buffer is then written as
one chunk.  Returns the new directory, writer and reported length. -/
def RotWriter.write (fs : FsM) (w : RotWriter) (buf : Chunk) :
    FsM × RotWriter × ℕ :=
  if buf = [] then (fs, w, 0)
  else if w.maxBytes < w.size + buf.length then
    let r := RotWriter.rotate fs w
    (fsAppend r.1 w.base buf,
     { r.2.1 with size := r.2.1.size + buf.length }, buf.length)
  else
    (fsAppend fs w.base buf,
     { w with size := w.size + buf.length }, buf.length)

/-! ### Lemmas about the directory model -/

theorem fsLookup_fsSet_self (fs : FsM) (n : String) (v : List Chunk) :
    fsLookup (fsSet fs n v) n = some v := by
  simp [fsLookup, fsSet, List.find?]

theorem fsLookup_fsAppend_self (fs : FsM) (n : String) (c : Chunk) :
    fsLookup (fsAppend fs n c) n = some ((fsLookup fs n).getD [] ++ [c]) := by
  simp [fsAppend, fsLookup_fsSet_self]

/-- After a rotation the active file holds exactly what the hook wrote. -/
theorem rotate_lookup_base (fs : FsM) (w : RotWriter) :
    fsLookup (RotWriter.rotate fs w).1 w.base = some w.headerChunks := by
  unfold RotWriter.rotate
  by_cases h : fsMem fs w.base <;>
    simp only [h, if_true, if_false, Bool.false_eq_true] <;>
    exact fsLookup_fsSet_self ..

/-- Rotating-writer claim C7: a non-empty `write(buf)` always reports the
whole buffer written; when the buffer would push the active file past
`max_bytes` the writer rotates first and the fresh active file is exactly
the hook output followed by `buf` as one intact chunk; otherwise `buf` is
appended, again as one intact chunk.  In particular a buffer longer than
`max_bytes` succeeds, and no buffer is ever split across two files. -/
theorem rotating_writer_whole_buffer (fs : FsM) (w : RotWriter) (buf : Chunk)
    (hne : buf ≠ []) :
    (RotWriter.write fs w buf).2.2 = buf.length ∧
    (w.maxBytes < w.size + buf.length →
      fsLookup (RotWriter.write fs w buf).1 w.base =
        some (w.headerChunks ++ [buf])) ∧
    (¬ w.maxBytes < w.size + buf.length →
      fsLookup (RotWriter.write fs w buf).1 w.base =
        some ((fsLookup fs w.base).getD [] ++ [buf])) := by
  unfold RotWriter.write
  rw [if_neg hne]
  by_cases hrot : w.maxBytes < w.size + buf.length
  · rw [if_pos hrot]
    refine ⟨rfl, fun _ => ?_, fun hc => absurd hrot hc⟩
    rw [fsLookup_fsAppend_self, rotate_lookup_base]
    rfl
  · rw [if_neg hrot]
    exact ⟨rfl, fun hc => absurd hc hrot,
      fun _ => fsLookup_fsAppend_self fs w.base buf⟩

/-- Closed witness for `rotating_writer_whole_buffer`: a 5-byte buffer that
exceeds the remaining budget of a 4-byte-cap writer is still written whole
into the fresh file. -/
theorem rotating_writer_whole_buffer_witness :
    "hello".data ≠ [] ∧
    (RotWriter.write [("log", ["abc".data])]
        { base := "log", maxBytes := 4, size := 3, nextIndex := 1,
          headerChunks := [] } "hello".data).2.2 = "hello".data.length := by
  refine ⟨by decide, ?_⟩
  exact (rotating_writer_whole_buffer [("log", ["abc".data])]
    { base := "log", maxBytes := 4, size := 3, nextIndex := 1,
      headerChunks := [] } "hello".data (by decide)).1

theorem fsLookup_cons (e : String × List Chunk) (l : FsM) (m : String) :
    fsLookup (e :: l) m = if e.1 = m then some e.2 else fsLookup l m := by
  by_cases h : e.1 = m
  · rw [if_pos h]
    simp [fsLookup, List.find?_cons_of_pos, h]
  · rw [if_neg h]
    simp [fsLookup, List.find?_cons_of_neg, h]

theorem fsRemove_cons (e : String × List Chunk) (l : FsM) (n : String) :
    fsRemove (e :: l) n = if e.1 = n then fsRemove l n else e :: fsRemove l n := by
  by_cases h : e.1 = n <;> simp [fsRemove, List.filter_cons, h]

theorem fsLookup_fsRemove_ne (fs : FsM) (n m : String) (h : ¬ m = n) :
    fsLookup (fsRemove fs n) m = fsLookup fs m := by
  induction fs with
  | nil => rfl
  | cons e rest ih =>
      rw [fsRemove_cons, fsLookup_cons]
      by_cases he : e.1 = n
      · have hm : ¬ e.1 = m := fun hc => h (hc ▸ he ▸ rfl)
        rw [if_pos he, if_neg hm]
        exact ih
      · rw [if_neg he, fsLookup_cons]
        by_cases hm : e.1 = m
        · rw [if_pos hm, if_pos hm]
        · rw [if_neg hm, if_neg hm]
          exact ih

theorem fsLookup_fsSet_ne (fs : FsM) (n m : String) (v : List Chunk)
    (h : ¬ m = n) : fsLookup (fsSet fs n v) m = fsLookup fs m := by
  rw [fsSet, fsLookup_cons, if_neg (fun hc => h hc.symm)]
  exact fsLookup_fsRemove_ne fs n m h

/-- A string never equals itself extended by a non-empty extension. -/
theorem string_ne_append_suffix (s t u : String) (h : 0 < t.length) :
    ¬ s = s ++ t ++ u := by
  intro hc
  have := congrArg String.length hc
  simp only [String.length_append] at this
  omega

/-- Rotating-writer claim C9: when the active file exists and the rotation
target `<base>.<next_index>` also already exists, `rotate` first deletes the
stale target, then renames the active file onto that same numbered name
(no alternative index is chosen), creates a fresh active file, and bumps
`next_index`.  The numbered file afterwards holds exactly the old active
file's contents. -/
theorem rotate_overwrites_stale_target (fs : FsM) (w : RotWriter)
    (hbase : fsMem fs w.base = true)
    (hnum : fsMem fs (w.base ++ "." ++ toString w.nextIndex) = true) :
    (RotWriter.rotate fs w).2.2 =
      [RotOp.removeFile (w.base ++ "." ++ toString w.nextIndex),
       RotOp.renameFile w.base (w.base ++ "." ++ toString w.nextIndex),
       RotOp.createFile w.base] ∧
    fsLookup (RotWriter.rotate fs w).1 (w.base ++ "." ++ toString w.nextIndex) =
      some ((fsLookup fs w.base).getD []) ∧
    (RotWriter.rotate fs w).2.1.nextIndex = w.nextIndex + 1 := by
  have hne : ¬ w.base = w.base ++ "." ++ toString w.nextIndex :=
    string_ne_append_suffix w.base "." (toString w.nextIndex) (by decide)
  unfold RotWriter.rotate
  rw [if_pos hbase]
  refine ⟨?_, ?_, ?_⟩
  · simp [hnum]
  · simp only [hnum, if_true]
    rw [fsLookup_fsSet_ne _ _ _ _ (fun hc => hne hc.symm), fsLookup_fsSet_self,
      fsLookup_fsRemove_ne _ _ _ hne]
  · rfl

/-- Closed witness for `rotate_overwrites_stale_target`: base `log` with a
stale `log.2` present. -/
theorem rotate_overwrites_stale_target_witness :
    fsMem [("log", ["aa".data]), ("log.2", ["old".data])] "log" = true ∧
    (RotWriter.rotate [("log", ["aa".data]), ("log.2", ["old".data])]
        { base := "log", maxBytes := 10, size := 2, nextIndex := 2,
          headerChunks := [] }).2.1.nextIndex = 2 + 1 := by
  refine ⟨by decide, ?_⟩
  exact (rotate_overwrites_stale_target
    [("log", ["aa".data]), ("log.2", ["old".data])]
    { base := "log", maxBytes := 10, size := 2, nextIndex := 2,
      headerChunks := [] } (by decide) (by decide)).2.2

/-! ## Recorder (src/crates/core/src/recorder.rs)

The recorder's streaming sink directory is carried inside the recorder
state.  `write_for_key` additionally reports the buffers it handed to the
writer, so "writes nothing" is directly observable. -/

/-- `Inner` (recorder.rs lines 18-23) with its directory contents. -/
structure RecInner where
  fs : FsM
  w : RotWriter
  dir : String
  base : String
  since_flush : ℕ

/-- `Recorder` (recorder.rs lines 25-29): `none` = disabled
(`save_recorder_files = false`). -/
structure RecorderM where
  inner : Option RecInner

/-- `Recorder::new` (recorder.rs lines 31-51).  `dirFs` is the (fresh)
contents of `<root>/recorder_files`. -/
def RecorderM.new (dirFs : FsM) (root : String) (save_recorder_files : Bool) :
    RecorderM :=
  if !save_recorder_files then { inner := none }
  else
    let dir := root ++ "/recorder_files"
    let p := RotWriter.new dirFs "quic-lab-recorder.jsonl" (128 * 1024 * 1024) []
    { inner := some (RecInner.mk p.1 p.2 dir "quic-lab-recorder.jsonl" 0) }

/-- `Recorder::write_for_key` (recorder.rs lines 59-88).  Returns the new
recorder, the list of buffers passed to the underlying writer, and the
returned path (`Except` is the `anyhow::Result` channel; the embedded
operations are total, and the disabled branch returns before doing
anything at all).  The record is `{"key": …, "value": …}` — the `json!`
object keys are already in BTreeMap order. -/
def RecorderM.write_for_key (r : RecorderM) (key : String) (value : Json) :
    RecorderM × List Chunk × Except Unit String :=
  match r.inner with
  | none => (r, [], Except.ok "")
  | some g =>
      let record := Json.obj [("key", Json.str key), ("value", value)]
      let buf := serializeJson record ++ [LFc]
      let res := RotWriter.write g.fs g.w buf
      let since := g.since_flush + 1
      let since := if 2000 ≤ since then 0 else since
      ({ inner := some { g with fs := res.1, w := res.2.1, since_flush := since } },
       [buf], Except.ok (g.dir ++ "/" ++ g.base))

/-- Claim C8: a recorder constructed with `save_recorder_files = false`
writes nothing on `write_for_key`, leaves its state untouched, and returns
`Ok` with an empty path, for every key and every value. -/
theorem recorder_disabled_writes_nothing (dirFs : FsM) (root key : String)
    (value : Json) :
    RecorderM.write_for_key (RecorderM.new dirFs root false) key value =
      (RecorderM.new dirFs root false, [], Except.ok "") := by
  rfl

/-! ## Probe orchestrator (src/crates/probes/src/h3.rs `probe`, lines 208-257;
src/crates/probes/src/template.rs `probe`, lines 151-218, has the identical
control flow)

The external world enters as parameters: `resolve idx` is
`resolve_targets(host, att.port, att.ip_version)` for the profile at
declaration index `idx` (`none` = resolution error, which `?` propagates),
and `runOk idx addr` tells whether `quic::open_connection` returned `Ok`
for that attempt.  The orchestrator emits a trace of rate-limit acquires,
attempts and inter-attempt sleeps; the `Bool` is `Ok`/`Err` of `probe`. -/

inductive OrchEvent where
  | acquire
  | attempt (profileIdx : ℕ) (addr : String)
  | sleep
  deriving DecidableEq, Repr

/-- The inner `for (_fam_eff, addr) in targets` loop of `probe`: rate-limit
acquire, run the attempt, stop at the first `Ok`.  Returns the trace and
`attempt_succeeded`. -/
def tryAddrs (runOk : ℕ → String → Bool) (idx : ℕ) :
    List String → List OrchEvent × Bool
  | [] => ([], false)
  | a :: rest =>
      if runOk idx a then ([OrchEvent.acquire, OrchEvent.attempt idx a], true)
      else
        let r := tryAddrs runOk idx rest
        (OrchEvent.acquire :: OrchEvent.attempt idx a :: r.1, r.2)

/-- The outer `for (idx, att) in connection_configs.iter().enumerate()` loop
of `probe`, over the list of remaining profile indices: resolve (propagating
a resolution error), try the addresses, stop the host at the first success,
otherwise sleep between profiles when `inter_attempt_delay_ms > 0`. -/
def probeAux (resolve : ℕ → Option (List String))
    (runOk : ℕ → String → Bool) (delayPos : Bool) :
    List ℕ → List OrchEvent × Bool
  | [] => ([], true)
  | idx :: rest =>
      match resolve idx with
      | none => ([], false)
      | some targets =>
          let r := tryAddrs runOk idx targets
          if r.2 then (r.1, true)
          else
            let r2 := probeAux resolve runOk delayPos rest
            (r.1 ++ (if rest ≠ [] ∧ delayPos then [OrchEvent.sleep] else [])
              ++ r2.1, r2.2)

/-- `h3::probe` for a host: profiles in declaration order `0, 1, …`. -/
def h3_probe (numProfiles : ℕ) (resolve : ℕ → Option (List String))
    (runOk : ℕ → String → Bool) (delayPos : Bool) : List OrchEvent × Bool :=
  probeAux resolve runOk delayPos (List.range numProfiles)

/-- Spec-side view for C3: all candidate attempts `(profile index, address)`
in profile-declaration order, resolver order within a profile, truncated at
a profile whose resolution fails. -/
def flatPairs (resolve : ℕ → Option (List String)) :
    List ℕ → List (ℕ × String)
  | [] => []
  | idx :: rest =>
      match resolve idx with
      | none => []
      | some ts => ts.map (fun a => (idx, a)) ++ flatPairs resolve rest

/-- All elements up to and including the first one satisfying `p`. -/
def takeThrough (p : α → Bool) : List α → List α
  | [] => []
  | x :: xs => if p x then [x] else x :: takeThrough p xs

/-- Keep rate-limit acquires and attempts, dropping inter-attempt sleeps. -/
def OrchEvent.isStep : OrchEvent → Bool
  | .sleep => false
  | _ => true

theorem takeThrough_append_of_any (p : α → Bool) (l₁ l₂ : List α)
    (h : l₁.any p = true) :
    takeThrough p (l₁ ++ l₂) = takeThrough p l₁ := by
  induction l₁ with
  | nil => simp at h
  | cons x xs ih =>
      by_cases hx : p x = true
      · simp [takeThrough, hx]
      · simp only [List.any_cons, Bool.or_eq_true] at h
        rcases h with h | h
        · exact absurd h hx
        · simp [takeThrough, hx, ih h]

theorem takeThrough_append_of_not_any (p : α → Bool) (l₁ l₂ : List α)
    (h : l₁.any p = false) :
    takeThrough p (l₁ ++ l₂) = l₁ ++ takeThrough p l₂ := by
  induction l₁ with
  | nil => rfl
  | cons x xs ih =>
      simp only [List.any_cons, Bool.or_eq_false_iff] at h
      simp [takeThrough, h.1, ih h.2]

theorem takeThrough_eq_self_of_not_any (p : α → Bool) (l : List α)
    (h : l.any p = false) : takeThrough p l = l := by
  have := takeThrough_append_of_not_any p l [] h
  simpa [takeThrough] using this

/-- The inner address loop produces exactly the acquire/attempt pairs of the
candidates up to and including the first successful one, and reports whether
any candidate succeeded. -/
theorem tryAddrs_eq (runOk : ℕ → String → Bool) (idx : ℕ) (ts : List String) :
    tryAddrs runOk idx ts =
      ((takeThrough (fun q => runOk q.1 q.2)
          (ts.map (fun a => (idx, a)))).flatMap
        (fun q => [OrchEvent.acquire, OrchEvent.attempt q.1 q.2]),
       ts.any (runOk idx)) := by
  induction ts with
  | nil => rfl
  | cons a rest ih =>
      by_cases ha : runOk idx a = true
      · simp [tryAddrs, ha, takeThrough]
      · simp only [tryAddrs, ha, if_neg, Bool.false_eq_true, ite_false,
          List.map_cons, takeThrough, List.any_cons, ih]
        simp [ha]

theorem filter_isStep_pairs (l : List (ℕ × String)) :
    (l.flatMap
        (fun q => [OrchEvent.acquire, OrchEvent.attempt q.1 q.2])).filter
      OrchEvent.isStep =
      l.flatMap (fun q => [OrchEvent.acquire, OrchEvent.attempt q.1 q.2]) := by
  induction l with
  | nil => rfl
  | cons q rest ih =>
      rw [List.flatMap_cons, List.filter_append, ih]
      rfl

/-- Claim C3: for every host, the orchestrator's rate-limit acquires and
attempts are exactly — in order — an acquire followed by an attempt for each
candidate `(profile, address)` pair, profiles in declaration order and
addresses in resolver order, truncated at (and including) the first
successful attempt; everything after the first success (remaining addresses
and remaining profiles) is skipped. -/
theorem orchestrator_order_and_short_circuit (numProfiles : ℕ)
    (resolve : ℕ → Option (List String)) (runOk : ℕ → String → Bool)
    (delayPos : Bool) :
    (h3_probe numProfiles resolve runOk delayPos).1.filter OrchEvent.isStep =
      (takeThrough (fun q => runOk q.1 q.2)
          (flatPairs resolve (List.range numProfiles))).flatMap
        (fun q => [OrchEvent.acquire, OrchEvent.attempt q.1 q.2]) := by
  unfold h3_probe
  generalize List.range numProfiles = idxs
  induction idxs with
  | nil => rfl
  | cons idx rest ih =>
      cases hres : resolve idx with
      | none => simp only [probeAux, flatPairs, hres, List.filter_nil,
          takeThrough, List.flatMap_nil]
      | some ts =>
          simp only [probeAux, flatPairs, hres]
          rw [tryAddrs_eq]
          by_cases hany : ts.any (runOk idx) = true
          · simp only [hany, if_true]
            rw [filter_isStep_pairs,
              takeThrough_append_of_any _ _ _ (by simpa using hany)]
          · simp only [hany, Bool.false_eq_true, if_false, List.filter_append]
            rw [filter_isStep_pairs,
              takeThrough_append_of_not_any _ _ _ (by simpa using hany),
              takeThrough_eq_self_of_not_any _ _ (by simpa using hany),
              List.flatMap_append, ih]
            congr 1
            by_cases hrest : rest ≠ [] ∧ delayPos = true <;>
              simp [hrest, OrchEvent.isStep, List.filter]

/-! ## HTTP/3 application (src/crates/probes/src/h3.rs `H3App`)

`on_connected` interacts with the tquic HTTP/3 library; the library's
fallible calls enter as parameters (`cfgOk` = `Http3Config::new`,
`initOk` = `Http3Connection::new_with_quic_conn`, `streamNew` =
`stream_new`, `sendOk` = `send_headers`).  The observable behaviour is the
trace of actions performed on the connection. -/

/-- One request header, `tquic::h3::Header`. -/
structure HeaderKV where
  name : String
  value : String
  deriving DecidableEq, Repr

/-- Actions `H3App::on_connected` performs on the QUIC connection. -/
inductive H3Action where
  | connClose (app : Bool) (code : ℕ) (reason : String)
  | openBidiStream (sid : ℕ)
  | sendHeaders (sid : ℕ) (headers : List HeaderKV) (fin : Bool)
  deriving DecidableEq, Repr

/-- The request-relevant fields of `H3App`. -/
structure H3AppM where
  host : String
  path : String
  user_agent : String
  deriving DecidableEq, Repr

/-- `H3App::new` (h3.rs lines 33-53): note that the stored `path` is
`peer_addr.to_string()` with the configured path appended
(`let mut full_path = peer_addr.to_string(); full_path.push_str(path);`).
`peerAddrText` is `SocketAddr::to_string()` of the peer address. -/
def H3AppM.new (host : String) (peerAddrText : String) (path : String)
    (user_agent : String) : H3AppM :=
  let full_path := peerAddrText ++ path
  { host := host, path := full_path, user_agent := user_agent }

/-- `H3App::on_connected` (h3.rs lines 57-104): initialise HTTP/3, open one
bidirectional request stream, send the GET header list with FIN set and no
body; any failure closes the connection with code 0x1. -/
def H3AppM.on_connected (app : H3AppM) (cfgOk initOk : Bool)
    (streamNew : Option ℕ) (sendOk : Bool) : List H3Action :=
  if !cfgOk then [H3Action.connClose true 1 "h3cfg"]
  else if !initOk then [H3Action.connClose true 1 "h3init"]
  else
    match streamNew with
    | none => [H3Action.connClose true 1 "h3sid"]
    | some sid =>
        let headers :=
          [HeaderKV.mk ":method" "GET",
           HeaderKV.mk ":scheme" "https",
           HeaderKV.mk ":authority" app.host,
           HeaderKV.mk ":path" app.path,
           HeaderKV.mk "user-agent" app.user_agent,
           HeaderKV.mk "accept" "*/*"]
        if sendOk then
          [H3Action.openBidiStream sid, H3Action.sendHeaders sid headers true]
        else
          [H3Action.openBidiStream sid, H3Action.sendHeaders sid headers true,
           H3Action.connClose true 1 "hdr"]

/-- On the happy path `on_connected` opens exactly one stream and sends one
header list with FIN; the header list is the six claimed entries — except
that `:path` is the peer address text with the profile path appended, not
the profile path itself. -/
theorem h3app_on_connected_headers (host peerAddrText path ua : String)
    (sid : ℕ) :
    H3AppM.on_connected (H3AppM.new host peerAddrText path ua) true true
        (some sid) true =
      [H3Action.openBidiStream sid,
       H3Action.sendHeaders sid
         [HeaderKV.mk ":method" "GET",
          HeaderKV.mk ":scheme" "https",
          HeaderKV.mk ":authority" host,
          HeaderKV.mk ":path" (peerAddrText ++ path),
          HeaderKV.mk "user-agent" ua,
          HeaderKV.mk "accept" "*/*"] true] := by
  rfl

/-- Claim C1 meets the `:path` slip: at host `example.com`, peer
`1.2.3.4:443`, profile path `/` and user agent `ua`, the header list sent on
connection establishment carries `:path = "1.2.3.4:443/"`, not the
profile's `/` — the peer address text is prepended to the configured path
(`H3App::new`), unlike the sibling driver in transport/quic.rs which sends
the profile path unchanged. -/
theorem h3app_path_header_bug :
    H3AppM.on_connected (H3AppM.new "example.com" "1.2.3.4:443" "/" "ua") true
        true (some 0) true =
      [H3Action.openBidiStream 0,
       H3Action.sendHeaders 0
         [HeaderKV.mk ":method" "GET",
          HeaderKV.mk ":scheme" "https",
          HeaderKV.mk ":authority" "example.com",
          HeaderKV.mk ":path" "1.2.3.4:443/",
          HeaderKV.mk "user-agent" "ua",
          HeaderKV.mk "accept" "*/*"] true] ∧
    ("1.2.3.4:443/" : String) ≠ "/" := by
  exact ⟨rfl, by decide⟩

/-! ## QUIC driver outcome classification
(src/crates/core/src/transport/quic.rs `run_connection_config`, lines 57-217,
and `TransportCb`, lines 306-406; `ProbeOutcome`, src/crates/core/src/types.rs
lines 19-29)

The tquic endpoint enters as a trace: each loop iteration delivers the
callbacks the endpoint fired (`recv`/`process_connections`) and the clock
value (milliseconds since `t_start`) at the terminal checks.  Socket errors
(`ECONNREFUSED`, `EHOSTUNREACH`, …) make `run_connection_config` return
`Err` before any outcome exists; the embedded loop covers the `Ok` path
that produces a `(record, outcome)` pair. -/

/-- `ProbeOutcome` (types.rs lines 19-29). -/
structure ProbeOutcome where
  retryable : Bool
  deriving DecidableEq, Repr

def ProbeOutcome.success : ProbeOutcome := { retryable := false }

def ProbeOutcome.retryable_fail : ProbeOutcome := { retryable := true }

def ProbeOutcome.nonretryable_fail : ProbeOutcome := { retryable := false }

/-- `H3State` (transport/quic.rs lines 239-258); `h3` tracks whether an
HTTP/3 connection object is held. -/
structure H3St where
  host : String
  path : String
  t_handshake_ok_ms : Option ℕ
  alpn : Option String
  h3 : Bool
  h3_attempted : Bool
  h3_status : Option ℕ
  error : Option String
  done : Bool
  deriving DecidableEq, Repr

/-- `H3State::new` (transport/quic.rs lines 260-275). -/
def H3St.new (host path : String) : H3St :=
  { host := host, path := path, t_handshake_ok_ms := none, alpn := none,
    h3 := false, h3_attempted := false, h3_status := none, error := none,
    done := false }

/-- One result of `h3.poll(conn)` inside `on_stream_readable`: a received
event, the `Done` sentinel, or another poll error. -/
inductive H3PollRes where
  | headers (status : Option ℕ)
  | dataEv
  | finished
  | otherEv
  | errDone
  | errOther (msg : String)
  deriving DecidableEq, Repr

/-- Callbacks tquic delivers during one loop iteration.  `connEstablished`
carries the elapsed milliseconds and the outcomes of the library calls made
inside the handler (`Http3Connection::new_with_quic_conn`, `stream_new`,
`send_headers`). -/
inductive CbEvent where
  | connEstablished (nowMs : ℕ) (h3InitOk : Bool) (streamNew : Option ℕ)
      (sendOk : Bool)
  | streamReadable (polls : List H3PollRes)
  | connClosed
  deriving DecidableEq, Repr

/-- `TransportCb::on_conn_established` (transport/quic.rs lines 312-353). -/
def applyEstablished (st : H3St) (nowMs : ℕ) (h3InitOk : Bool)
    (streamNew : Option ℕ) (sendOk : Bool) : H3St :=
  let st :=
    if st.t_handshake_ok_ms = none then
      { st with t_handshake_ok_ms := some nowMs }
    else st
  if !h3InitOk then
    { st with error := some "h3 init failed", done := true }
  else
    let st := { st with h3_attempted := true }
    match streamNew with
    | none => { st with error := some "h3 stream_new error", done := true }
    | some _sid =>
        if sendOk then { st with h3 := true }
        else { st with error := some "h3 send headers error", done := true }

/-- The poll-handling loop of `TransportCb::on_stream_readable`
(transport/quic.rs lines 355-401). -/
def applyPolls (st : H3St) : List H3PollRes → H3St
  | [] => st
  | p :: rest =>
      if !st.h3 then st
      else
        match p with
        | .headers status =>
            let st :=
              match status with
              | some code => { st with h3_status := some code }
              | none => st
            applyPolls st rest
        | .dataEv => applyPolls st rest
        | .finished => { st with done := true }
        | .otherEv => applyPolls st rest
        | .errDone => st
        | .errOther msg =>
            { st with error := some ("h3 poll error: " ++ msg), done := true }

/-- Dispatch one callback (`HandlerShim`, transport/quic.rs lines 282-304;
`on_conn_closed` sets `done`, lines 403-405). -/
def applyCb (st : H3St) : CbEvent → H3St
  | .connEstablished nowMs initOk sn sendOk =>
      applyEstablished st nowMs initOk sn sendOk
  | .streamReadable polls => applyPolls st polls
  | .connClosed => { st with done := true }

/-- One iteration of the main loop of `run_connection_config`
(transport/quic.rs lines 132-175): deliver this tick's callbacks, then run
the terminal checks in order — application `done`; handshake not yet OK and
the handshake deadline passed; the overall deadline passed.  Returns the
state and whether the loop broke. -/
def loopStep (handshakeMs overallMs : ℕ) (st : H3St)
    (events : List CbEvent) (nowMs : ℕ) : H3St × Bool :=
  let st := events.foldl applyCb st
  if st.done then (st, true)
  else if st.t_handshake_ok_ms = none ∧ handshakeMs ≤ nowMs then
    ({ st with error := some "handshake timeout" }, true)
  else if overallMs ≤ nowMs then
    ({ st with error := some "overall timeout" }, true)
  else (st, false)

/-- Run the loop over a trace of ticks until it breaks. -/
def runLoop (handshakeMs overallMs : ℕ) (st : H3St) :
    List (List CbEvent × ℕ) → H3St
  | [] => st
  | (events, nowMs) :: rest =>
      let r := loopStep handshakeMs overallMs st events nowMs
      if r.2 then r.1 else runLoop handshakeMs overallMs r.1 rest

/-- The outcome computed after the loop (transport/quic.rs lines 210-214):
`success()` iff the handshake completed at some point, else
`retryable_fail()`. -/
def classifyOutcome (st : H3St) : ProbeOutcome :=
  if st.t_handshake_ok_ms.isSome then ProbeOutcome.success
  else ProbeOutcome.retryable_fail

/-- The terminal state of `run_connection_config` on host/path with the
given deadlines and endpoint trace, paired with its outcome. -/
def run_connection_config (host path : String) (handshakeMs overallMs : ℕ)
    (ticks : List (List CbEvent × ℕ)) : H3St × ProbeOutcome :=
  let st := runLoop handshakeMs overallMs (H3St.new host path) ticks
  (st, classifyOutcome st)

/-- Counterexample to claim C2: a run in which the handshake completes at
10 ms and the overall deadline (8000 ms) then expires terminates with
`error = "overall timeout"`, yet the driver classifies it as
non-retryable (`success()`), while the claim lists the overall timeout among
the retryable failures. -/
theorem outcome_overall_timeout_not_retryable_cex :
    (run_connection_config "example.com" "/" 4000 8000
        [([CbEvent.connEstablished 10 true (some 0) true], 20), ([], 8000)]).1.error
        = some "overall timeout" ∧
    (run_connection_config "example.com" "/" 4000 8000
        [([CbEvent.connEstablished 10 true (some 0) true], 20),
         ([], 8000)]).2.retryable = false := by
  exact ⟨rfl, rfl⟩

/-- Amended claim C2: the outcome returned by the QUIC driver is retryable
exactly when the handshake never completed — whatever the terminal cause;
any terminal state reached after the handshake completed (including an
overall timeout or an HTTP/3 error) is non-retryable.  (Socket-level
connection-refused / host-unreachable errors abort the driver with `Err`
and never produce an outcome at all.) -/
theorem outcome_retryable_iff_no_handshake (host path : String)
    (handshakeMs overallMs : ℕ) (ticks : List (List CbEvent × ℕ)) :
    (run_connection_config host path handshakeMs overallMs ticks).2.retryable =
      (run_connection_config host path handshakeMs overallMs
        ticks).1.t_handshake_ok_ms.isNone := by
  unfold run_connection_config classifyOutcome
  cases h : (runLoop handshakeMs overallMs (H3St.new host path)
      ticks).t_handshake_ok_ms <;>
    simp [h, ProbeOutcome.success, ProbeOutcome.retryable_fail]

/-! ## Session-ticket persistence
(src/crates/core/src/transport/quic/quic.rs `ClientHandler::on_conn_established`
lines 306-321 and `on_conn_closed` lines 323-341; `shard2`,
src/crates/core/src/lib.rs lines 14-21)

Paths are component lists.  `hash64` is `std::hash::DefaultHasher` (an
external, unkeyed SipHash), entering as a parameter; only its top two bytes
are consumed.  The filesystem effects of the session-persistence block are
an explicit operation trace. -/

/-- Path filesystem operations of the driver's handler. -/
inductive PathOp where
  | createDirAll (p : List String)
  | writeFile (p : List String) (data : List Char)
  | fsyncFile (p : List String)
  | renamePath (src dst : List String)
  deriving DecidableEq, Repr

def PathOp.isRename : PathOp → Bool
  | .renamePath _ _ => true
  | _ => false

def PathOp.isFsync : PathOp → Bool
  | .fsyncFile _ => true
  | _ => false

/-- Hex digit as printed by `format!("{:02x}", _)`. -/
def hexDigit (n : ℕ) : Char :=
  if n < 10 then Char.ofNat (48 + n) else Char.ofNat (87 + n)

/-- Two-digit lowercase hex of a byte. -/
def hexByte2 (n : ℕ) : String :=
  String.mk [hexDigit (n / 16 % 16), hexDigit (n % 16)]

/-- `shard2` (lib.rs lines 14-21): the top two bytes of the 64-bit hash of
the key become two directory components under `base`. -/
def shard2 (hash64 : String → ℕ) (base : List String) (host : String) :
    List String :=
  let x := hash64 host % 2 ^ 64
  base ++ [hexByte2 (x / 2 ^ 56 % 256), hexByte2 (x / 2 ^ 48 % 256)]

/-- The session-persistence block shared verbatim by
`ClientHandler::on_conn_established` (quic/quic.rs lines 310-318) and
`ClientHandler::on_conn_closed` (lines 330-340): when the handler was
constructed with `save_session_files` (non-empty `session_root`) and
`conn.session()` exposes a ticket, create the shard directory and write
`<session_root>/<shard(host)>/<host>.session` with a single direct
`fs::write`. -/
def sessionPersistOps (hash64 : String → ℕ) (session_root : List String)
    (host : String) (ticket : Option (List Char)) : List PathOp :=
  if session_root.isEmpty then []
  else
    match ticket with
    | none => []
    | some s =>
        let sdir := shard2 hash64 session_root host
        let p := sdir ++ [host ++ ".session"]
        [PathOp.createDirAll sdir, PathOp.writeFile p s]

/-- `on_conn_established`'s session persistence. -/
def onConnEstablishedSessionOps (hash64 : String → ℕ)
    (session_root : List String) (host : String) (ticket : Option (List Char)) :
    List PathOp :=
  sessionPersistOps hash64 session_root host ticket

/-- `on_conn_closed`'s session persistence (identical block; the only
difference in the source is that this one logs a write error). -/
def onConnClosedSessionOps (hash64 : String → ℕ) (session_root : List String)
    (host : String) (ticket : Option (List Char)) : List PathOp :=
  sessionPersistOps hash64 session_root host ticket

/-- Counterexample to claim C4: with session files enabled and a ticket
exposed, the persistence block performs no rename and no fsync — it is a
plain `fs::write` of the final path, not the write-to-temporary, fsync,
same-directory-rename discipline the claim states.  Shown on both hooks at
a concrete input (`hash64 = 0`, host `example.com`, ticket `tkt`). -/
theorem session_write_not_atomic_cex :
    onConnEstablishedSessionOps (fun _ => 0) ["out", "session_files"]
        "example.com" (some "tkt".data) =
      [PathOp.createDirAll ["out", "session_files", "00", "00"],
       PathOp.writeFile ["out", "session_files", "00", "00",
         "example.com.session"] "tkt".data] ∧
    (onConnEstablishedSessionOps (fun _ => 0) ["out", "session_files"]
        "example.com" (some "tkt".data)).all
      (fun op => !op.isRename && !op.isFsync) = true ∧
    (onConnClosedSessionOps (fun _ => 0) ["out", "session_files"]
        "example.com" (some "tkt".data)).all
      (fun op => !op.isRename && !op.isFsync) = true := by
  exact ⟨rfl, by decide, by decide⟩

/-- Amended claim C4: on connection established and again on connection
close, if session files are enabled and the library exposes a ticket, the
driver creates the shard directory and writes
`<session_root>/<shard(host)>/<host>.session` with a single direct
(non-atomic) `fs::write` — no temporary file, fsync or rename is involved. -/
theorem session_write_direct (hash64 : String → ℕ)
    (session_root : List String) (host : String) (s : List Char)
    (henabled : session_root.isEmpty = false) :
    onConnEstablishedSessionOps hash64 session_root host (some s) =
      [PathOp.createDirAll (shard2 hash64 session_root host),
       PathOp.writeFile (shard2 hash64 session_root host ++ [host ++ ".session"])
         s] ∧
    onConnClosedSessionOps hash64 session_root host (some s) =
      onConnEstablishedSessionOps hash64 session_root host (some s) := by
  unfold onConnClosedSessionOps onConnEstablishedSessionOps sessionPersistOps
  rw [henabled]
  exact ⟨rfl, rfl⟩

/-- Closed witness for `session_write_direct`. -/
theorem session_write_direct_witness :
    (["sess"] : List String).isEmpty = false ∧
    onConnEstablishedSessionOps (fun _ => 257) ["sess"] "h" (some "t".data) =
      [PathOp.createDirAll (shard2 (fun _ => 257) ["sess"] "h"),
       PathOp.writeFile (shard2 (fun _ => 257) ["sess"] "h" ++ ["h.session"])
         "t".data] := by
  exact ⟨rfl, (session_write_direct (fun _ => 257) ["sess"] "h" "t".data rfl).1⟩

/-! ## Qlog multiplexer and per-connection adapter (src/crates/core/src/qlog.rs)

The multiplexer writes frames through a `BufWriter` over the rotating
writer; on the `append_record` path each record is one `write_all`, and the
buffer only ever concatenates whole records, so records are modelled as
single chunks reaching the rotating writer.  serde_json's parser is
external and enters as a parameter `parse`; serialisation is
`serializeJson` above. -/

/-- `f64::EPSILON` = 2⁻⁵². -/
def EPS : ℚ := 1 / 4503599627370496

/-- `f64::abs`. -/
def ratAbs (q : ℚ) : ℚ := if q < 0 then -q else q

/-- The `1e-6` monotonicity bump. -/
def MICRO : ℚ := 1 / 1000000

/-- `MINIMIZE_QLOG` (qlog.rs line 21). -/
def MINIMIZE_QLOG : Bool := true

/-- `str::contains` on non-empty patterns. -/
def listContains (hay needle : List Char) : Bool :=
  needle.isPrefixOf hay ||
    match hay with
    | [] => false
    | _ :: t => listContains t needle

def strContains (s pat : String) : Bool :=
  listContains s.data pat.data

/-- `str::starts_with`. -/
def strStarts (s pat : String) : Bool :=
  pat.data.isPrefixOf s.data

/-- `str::ends_with`. -/
def strEnds (s pat : String) : Bool :=
  pat.data.isSuffixOf s.data

/-- Rebuild an object from selected keys of another: `clear()` followed by
inserting each still-present key (BTreeMap insertion = sorted insertion). -/
def objKeep (fields : List (String × Json)) (keys : List String) :
    List (String × Json) :=
  keys.foldl
    (fun acc k =>
      match objGet fields k with
      | some v => objInsert acc k v
      | none => acc)
    []

/-- Replace the value stored at `k` (in place, as `get_mut` does). -/
def objSet (fields : List (String × Json)) (k : String) (v : Json) :
    List (String × Json) :=
  fields.map (fun kv => if kv.1 = k then (k, v) else kv)

/-- Apply `f` to the object stored at key `k`, when that value is an object
(`get_mut(k).and_then(as_object_mut)`). -/
def jModifyKeyObj (fields : List (String × Json)) (k : String)
    (f : List (String × Json) → List (String × Json)) :
    List (String × Json) :=
  match objGet fields k with
  | some (.obj inner) => objSet fields k (.obj (f inner))
  | _ => fields

/-- Map `f` over the array stored at key `k`, when that value is an array
(`get_mut(k).and_then(as_array_mut)`). -/
def jModifyKeyArr (fields : List (String × Json)) (k : String)
    (f : Json → Json) : List (String × Json) :=
  match objGet fields k with
  | some (.arr xs) => objSet fields k (.arr (xs.map f))
  | _ => fields

/-- `ev` with `data.raw` removed, when `ev` and `ev.data` are objects. -/
def removeRawInData (ev : Json) : Json :=
  match ev with
  | .obj fields => .obj (jModifyKeyObj fields "data" (fun ds => objRemove ds "raw"))
  | _ => ev

/-- Per-frame reduction of the `quic:packet_sent` / `quic:packet_received`
branch: keep only `frame_type` and `stream_id` (qlog.rs lines 307-321). -/
def minFramePacket (f : Json) : Json :=
  match f with
  | .obj fo => .obj (objKeep fo ["frame_type", "stream_id"])
  | _ => f

/-- The `data` surgery of the packet branch (qlog.rs lines 266-323): prune
`header` to `{packet_type, packet_number, scil, dcil}`, `raw` to
`{length, payload_length}`, and each frame to `{frame_type, stream_id}`. -/
def minPacketData (ds : List (String × Json)) : List (String × Json) :=
  let ds := jModifyKeyObj ds "header"
    (fun h => objKeep h ["packet_type", "packet_number", "scil", "dcil"])
  let ds := jModifyKeyObj ds "raw" (fun r => objKeep r ["length", "payload_length"])
  jModifyKeyArr ds "frames" minFramePacket

/-- Per-frame reduction of the default branch (qlog.rs lines 331-350). -/
def minFrameDefault (f : Json) : Json :=
  match f with
  | .obj fo =>
      let fo := objRemove (objRemove (objRemove fo "raw") "payload_length")
        "length_in_bytes"
      let ft := objGet fo "frame_type"
      let sid := objGet fo "stream_id"
      if ft.isSome || sid.isSome then
        .obj (objKeep fo ["frame_type", "stream_id"])
      else .obj fo
  | _ => f

/-- The `data` surgery of the default branch (qlog.rs lines 327-353). -/
def minDataDefault (ds : List (String × Json)) : List (String × Json) :=
  let ds := objRemove ds "raw"
  jModifyKeyArr ds "frames" minFrameDefault

/-- `qvis_minimize_in_place` (qlog.rs lines 211-356) as a function: `none`
means the event is dropped. -/
def qvis_minimize (ev : Json) : Option Json :=
  if !MINIMIZE_QLOG then some ev
  else
    let name := ((jGet ev "name").bind jAsStr).getD ""
    if strStarts name "meta:" || strStarts name "loglevel:" then
      some (removeRawInData ev)
    else if strEnds name ":parameters_set" then some ev
    else if strContains name "error" || strContains name "closed" ||
        strStarts name "quic:path_" || strContains name "connection_lost" then
      some (removeRawInData ev)
    else if strStarts name "recovery:" then
      if name = "recovery:packet_lost" then some ev else none
    else if name = "quic:stream_data_moved" then none
    else if name = "quic:packet_sent" || name = "quic:packet_received" then
      some (match ev with
        | .obj fields => .obj (jModifyKeyObj fields "data" minPacketData)
        | _ => ev)
    else
      some (match ev with
        | .obj fields => .obj (jModifyKeyObj fields "data" minDataDefault)
        | _ => ev)

/-- The JSON-SEQ header `QlogHeaderHook::on_new_file` writes (qlog.rs lines
45-71), with `reference_time` `rt`; keys in BTreeMap order. -/
def headerJson (rt : ℚ) : Json :=
  .obj [("description", .str "Aggregated multi-connection log"),
        ("qlog_format", .str "JSON-SEQ"),
        ("qlog_version", .str "0.4"),
        ("title", .str "quic-lab session"),
        ("trace", .obj
          [("common_fields", .obj
            [("reference_time", .num rt), ("time_format", .str "relative")]),
           ("vantage_point", .obj
            [("name", .str "quic-lab"), ("type", .str "client")])])]

/-- The header frame: `RS` + JSON + `LF`. -/
def headerFrame (rt : ℚ) : Chunk :=
  RSc :: (serializeJson (headerJson rt) ++ [LFc])

/-- `Inner`/`QlogMux` state (qlog.rs lines 82-94). -/
structure MuxSt where
  fs : FsM
  rw : RotWriter
  last_t : List (String × ℚ)
  since_flush : ℕ

/-- `QlogMux::new` (qlog.rs lines 97-111): a rotating writer on
`quic-lab.sqlog`, 256 MiB cap, header hook. -/
def QlogMux.new (rt : ℚ) : MuxSt :=
  let p := RotWriter.new [] "quic-lab.sqlog" (256 * 1024 * 1024) [headerFrame rt]
  { fs := p.1, rw := p.2, last_t := [], since_flush := 0 }

def lookupT (l : List (String × ℚ)) (g : String) : Option ℚ :=
  (l.find? (fun e => e.1 = g)).map (·.2)

def insertT (l : List (String × ℚ)) (g : String) (t : ℚ) :
    List (String × ℚ) :=
  (g, t) :: l.filter (fun e => !(e.1 = g : Bool))

/-- The chunks currently in the multiplexer's active output file. -/
def MuxSt.outChunks (m : MuxSt) : List Chunk :=
  (fsLookup m.fs m.rw.base).getD []

/-- `QlogMux::append_record` (qlog.rs lines 113-126): drop frames the header
detector flags; write everything else unchanged; periodic flush.  No time
inspection of any kind happens here. -/
def MuxSt.append_record (m : MuxSt) (record : Chunk) : MuxSt :=
  if is_header_frame record then m
  else
    let r := RotWriter.write m.fs m.rw record
    let since := m.since_flush + 1
    let since := if 2000 ≤ since then 0 else since
    { m with fs := r.1, rw := r.2.1, since_flush := since }

/-- `QlogMux::append_event` (qlog.rs lines 128-155): the multiplexer's own
event channel — per-`group_id` monotonic time, then an
`{"time", "name", "group_id", "data"}` event frame. -/
def MuxSt.append_event (m : MuxSt) (nowMs : ℚ) (group_id name : String)
    (data : Json) : MuxSt :=
  let t :=
    match lookupT m.last_t group_id with
    | some prev => if nowMs ≤ prev then prev + MICRO else nowMs
    | none => nowMs
  let ev := Json.obj [("data", data), ("group_id", .str group_id),
    ("name", .str name), ("time", .num t)]
  let evRec := RSc :: (serializeJson ev ++ [LFc])
  let r := RotWriter.write m.fs m.rw evRec
  let since := m.since_flush + 1
  let since := if 2000 ≤ since then 0 else since
  { fs := r.1, rw := r.2.1, last_t := insertT m.last_t group_id t,
    since_flush := since }

/-- The per-connection time fix of `PerConnSqlog::forward_frame` (qlog.rs
lines 393-404): when the parsed value carries a numeric `time` that is not
greater than the previous one, replace it by `previous + 1e-6` (the
insertion is skipped when the adjustment is within `f64::EPSILON`); the
remembered time is always the adjusted one. -/
def adjustTime (lastT : Option ℚ) (v : Json) : Json × Option ℚ :=
  match (jGet v "time").bind jAsNum with
  | some t =>
      let t_adj :=
        match lastT with
        | some prev => if t ≤ prev then prev + MICRO else t
        | none => t
      let v := if EPS < ratAbs (t_adj - t) then jInsertIfObj v "time" (.num t_adj)
        else v
      (v, some t_adj)
  | none => (v, lastT)

/-- `PerConnSqlog::forward_frame` (qlog.rs lines 381-421): for a complete
`RS … LF` frame whose payload parses, inject `group_id` when absent, fix the
time, minimise, reserialise and hand to the multiplexer; otherwise hand the
raw frame bytes to the multiplexer unchanged. -/
def forward_frame (parse : List Char → Option Json) (m : MuxSt) (gid : String)
    (lastT : Option ℚ) (record : Chunk) : MuxSt × Option ℚ :=
  if 3 ≤ record.length ∧ record.head? = some RSc ∧ record.getLast? = some LFc then
    match parse ((record.drop 1).dropLast) with
    | some v =>
        let v := if (jGet v "group_id").isNone then
            jInsertIfObj v "group_id" (.str gid)
          else v
        let p := adjustTime lastT v
        match qvis_minimize p.1 with
        | none => (m, p.2)
        | some v2 =>
            (m.append_record (RSc :: (serializeJson v2 ++ [LFc])), p.2)
    | none => (m.append_record record, lastT)
  else (m.append_record record, lastT)

/-- `iter().position(pred)` for one character. -/
def firstIdxFrom : List Char → Char → Option ℕ
  | [], _ => none
  | a :: rest, c =>
      if a = c then some 0 else (firstIdxFrom rest c).map (· + 1)

theorem firstIdxFrom_lt (l : List Char) (c : Char) :
    ∀ i, firstIdxFrom l c = some i → i < l.length := by
  induction l with
  | nil => intro i h; simp [firstIdxFrom] at h
  | cons a rest ih =>
      intro i h
      simp only [firstIdxFrom] at h
      by_cases ha : a = c
      · rw [if_pos ha] at h
        cases h
        simp
      · rw [if_neg ha] at h
        cases hfr : firstIdxFrom rest c with
        | none => rw [hfr] at h; simp at h
        | some j =>
            rw [hfr] at h
            simp at h
            have := ih j hfr
            simp only [List.length_cons]
            omega

/-- The frame-splitting loop of `<Write for PerConnSqlog>::write` (qlog.rs
lines 424-448): find the first `RS` (dropping noise before it; when there is
no `RS` the buffer is kept as is), then the first `LF` after it; emit the
complete frame through `forward_frame` and continue; stop on an incomplete
frame, keeping it buffered. -/
def pcsProcess (parse : List Char → Option Json) (m : MuxSt) (gid : String)
    (lastT : Option ℚ) (buf : List Char) : MuxSt × Option ℚ × List Char :=
  match hs : firstIdxFrom buf RSc with
  | none => (m, lastT, buf)
  | some start =>
      let buf1 := buf.drop start
      match he : firstIdxFrom buf1.tail LFc with
      | none => (m, lastT, buf1)
      | some endRel =>
          let frameRec := buf1.take (endRel + 2)
          let rest := buf1.drop (endRel + 2)
          let r := forward_frame parse m gid lastT frameRec
          pcsProcess parse r.1 gid r.2 rest
termination_by buf.length
decreasing_by
  have h1 : start < buf.length := firstIdxFrom_lt buf RSc start hs
  simp only [List.length_drop]
  omega

/-- `PerConnSqlog` (qlog.rs lines 361-365). -/
structure PerConnSqlog where
  gid : String
  last_t : Option ℚ
  buf : List Char

/-- `PerConnSqlog::new` for an enabled qlog sink (qlog.rs lines 368-378). -/
def PerConnSqlog.new (group_id : String) : PerConnSqlog :=
  { gid := group_id, last_t := none, buf := [] }

/-- `<Write for PerConnSqlog>::write`: append the incoming bytes, process
complete frames, report the full length written. -/
def pcsWrite (parse : List Char → Option Json) (m : MuxSt) (pc : PerConnSqlog)
    (data : List Char) : MuxSt × PerConnSqlog × ℕ :=
  let r := pcsProcess parse m pc.gid pc.last_t (pc.buf ++ data)
  (r.1, { pc with last_t := r.2.1, buf := r.2.2 }, data.length)

theorem firstIdxFrom_append_found (junk : List Char) (c : Char) (r : List Char)
    (h : firstIdxFrom junk c = none) :
    firstIdxFrom (junk ++ c :: r) c = some junk.length := by
  induction junk with
  | nil => simp [firstIdxFrom]
  | cons a j ih =>
      simp only [firstIdxFrom] at h
      by_cases ha : a = c
      · rw [if_pos ha] at h
        cases h
      · rw [if_neg ha] at h
        have hnone : firstIdxFrom j c = none := by
          cases hfr : firstIdxFrom j c with
          | none => rfl
          | some k => rw [hfr] at h; simp at h
        simp [firstIdxFrom, ha, ih hnone]

theorem pcsProcess_no_rs (parse : List Char → Option Json) (m : MuxSt)
    (gid : String) (lastT : Option ℚ) (buf : List Char)
    (h : firstIdxFrom buf RSc = none) :
    pcsProcess parse m gid lastT buf = (m, lastT, buf) := by
  unfold pcsProcess
  split
  · rfl
  · next start hs => rw [h] at hs; cases hs

/-- Feeding the adapter loop one byte region consisting of `RS`-free noise
followed by a single complete `RS … LF` frame: the noise is discarded, the
frame goes through `forward_frame`, and the buffer ends empty. -/
theorem pcsProcess_one_frame (parse : List Char → Option Json) (m : MuxSt)
    (gid : String) (lastT : Option ℚ) (junk payload : List Char)
    (hj : firstIdxFrom junk RSc = none)
    (hp : firstIdxFrom payload LFc = none) :
    pcsProcess parse m gid lastT (junk ++ (RSc :: (payload ++ [LFc]))) =
      ((forward_frame parse m gid lastT (RSc :: (payload ++ [LFc]))).1,
       (forward_frame parse m gid lastT (RSc :: (payload ++ [LFc]))).2, []) := by
  have hfind : firstIdxFrom (junk ++ (RSc :: (payload ++ [LFc]))) RSc =
      some junk.length := firstIdxFrom_append_found junk RSc _ hj
  have hdrop : (junk ++ (RSc :: (payload ++ [LFc]))).drop junk.length =
      RSc :: (payload ++ [LFc]) := List.drop_left junk _
  have htail : (RSc :: (payload ++ [LFc])).tail = payload ++ [LFc] := rfl
  have hfindLF : firstIdxFrom (payload ++ [LFc]) LFc = some payload.length := by
    simpa using firstIdxFrom_append_found payload LFc [] hp
  have hlen : (RSc :: (payload ++ [LFc])).length = payload.length + 2 := by
    simp
  have htake : (RSc :: (payload ++ [LFc])).take (payload.length + 2) =
      RSc :: (payload ++ [LFc]) := by
    apply List.take_of_length_le
    omega
  have hdrop2 : (RSc :: (payload ++ [LFc])).drop (payload.length + 2) =
      ([] : List Char) := by
    apply List.drop_eq_nil_of_le
    omega
  unfold pcsProcess
  split
  · next hs => rw [hfind] at hs; cases hs
  · next start hs =>
      rw [hfind] at hs
      cases hs
      simp only [hdrop, List.tail_cons]
      split
      · next he => rw [hdrop, List.tail_cons, hfindLF] at he; cases he
      · next endRel he =>
          rw [hdrop, List.tail_cons, hfindLF] at he
          cases he
          simp only [htake, hdrop2]
          rw [pcsProcess_no_rs parse _ gid _ [] rfl]

/-- `forward_frame` on a complete frame whose payload does not parse: the
exact frame bytes go to the multiplexer (fallback path) and the adapter's
remembered time is untouched. -/
theorem forward_frame_unparsed (parse : List Char → Option Json) (m : MuxSt)
    (gid : String) (lastT : Option ℚ) (payload : List Char)
    (hP : parse payload = none) :
    forward_frame parse m gid lastT (RSc :: (payload ++ [LFc])) =
      (m.append_record (RSc :: (payload ++ [LFc])), lastT) := by
  have hpl : ((RSc :: (payload ++ [LFc])).drop 1).dropLast = payload := by
    simp
  unfold forward_frame
  by_cases hc : 3 ≤ (RSc :: (payload ++ [LFc])).length ∧
      (RSc :: (payload ++ [LFc])).head? = some RSc ∧
      (RSc :: (payload ++ [LFc])).getLast? = some LFc
  · rw [if_pos hc, hpl, hP]
  · rw [if_neg hc]

/-- Claim C10: a complete `RS…LF` frame whose payload does not parse as JSON
is handed to the multiplexer byte-identically — no group-id injection, no
time adjustment (the adapter's remembered time is unchanged) and no
minimisation — after discarding the bytes preceding the first `RS`; the
multiplexer then drops it when (and only when) the header detector flags
it, and otherwise appends it unchanged to the output file. -/
theorem adapter_forwards_unparsed_frames (parse : List Char → Option Json)
    (m : MuxSt) (gid : String) (lastT : Option ℚ) (junk payload : List Char)
    (hj : firstIdxFrom junk RSc = none)
    (hp : firstIdxFrom payload LFc = none)
    (hP : parse payload = none) :
    pcsWrite parse m { gid := gid, last_t := lastT, buf := [] }
        (junk ++ (RSc :: (payload ++ [LFc]))) =
      (m.append_record (RSc :: (payload ++ [LFc])),
       { gid := gid, last_t := lastT, buf := [] },
       (junk ++ (RSc :: (payload ++ [LFc]))).length) ∧
    (is_header_frame (RSc :: (payload ++ [LFc])) = true →
      m.append_record (RSc :: (payload ++ [LFc])) = m) ∧
    (is_header_frame (RSc :: (payload ++ [LFc])) = false →
      m.rw.size + (payload.length + 2) ≤ m.rw.maxBytes →
      (m.append_record (RSc :: (payload ++ [LFc]))).outChunks =
        m.outChunks ++ [RSc :: (payload ++ [LFc])]) := by
  refine ⟨?_, ?_, ?_⟩
  · unfold pcsWrite
    simp only [List.nil_append]
    rw [pcsProcess_one_frame parse m gid lastT junk payload hj hp,
      forward_frame_unparsed parse m gid lastT payload hP]
  · intro h
    unfold MuxSt.append_record
    rw [if_pos h]
  · intro h hfit
    unfold MuxSt.append_record
    rw [if_neg (by simp [h])]
    unfold MuxSt.outChunks RotWriter.write
    rw [if_neg (by simp)]
    have hlen : (RSc :: (payload ++ [LFc])).length = payload.length + 2 := by
      simp
    rw [if_neg (by rw [hlen]; omega)]
    simp only []
    rw [fsLookup_fsAppend_self]
    simp

/-- Closed witness for `adapter_forwards_unparsed_frames`: noise `x`,
payload `ab` (not JSON), a parser that rejects it. -/
theorem adapter_forwards_unparsed_frames_witness :
    firstIdxFrom "x".data RSc = none ∧
    firstIdxFrom "ab".data LFc = none ∧
    pcsWrite (fun _ => none) (QlogMux.new 0)
        { gid := "g", last_t := none, buf := [] }
        ("x".data ++ (RSc :: ("ab".data ++ [LFc]))) =
      ((QlogMux.new 0).append_record (RSc :: ("ab".data ++ [LFc])),
       { gid := "g", last_t := none, buf := [] },
       ("x".data ++ (RSc :: ("ab".data ++ [LFc]))).length) := by
  refine ⟨by decide, by decide, ?_⟩
  exact (adapter_forwards_unparsed_frames (fun _ => none) (QlogMux.new 0) "g"
    none "x".data "ab".data (by decide) (by decide) rfl).1

/-- Feeding the adapter exactly one complete frame reduces to one
`forward_frame` call. -/
theorem pcsWrite_single_frame (parse : List Char → Option Json) (m : MuxSt)
    (gid : String) (lt : Option ℚ) (payload : List Char)
    (hp : firstIdxFrom payload LFc = none) :
    pcsWrite parse m { gid := gid, last_t := lt, buf := [] }
        (RSc :: (payload ++ [LFc])) =
      ((forward_frame parse m gid lt (RSc :: (payload ++ [LFc]))).1,
       { gid := gid,
         last_t := (forward_frame parse m gid lt (RSc :: (payload ++ [LFc]))).2,
         buf := [] },
       (RSc :: (payload ++ [LFc])).length) := by
  unfold pcsWrite
  simp only [List.nil_append]
  have h := pcsProcess_one_frame parse m gid lt [] payload rfl hp
  simp only [List.nil_append] at h
  rw [h]

/-- `adjustTime` with no previous time: the value passes through and the
time is remembered. -/
theorem adjustTime_none (v : Json) (t : ℚ)
    (ht : (jGet v "time").bind jAsNum = some t) :
    adjustTime none v = (v, some t) := by
  unfold adjustTime
  rw [ht]
  have habs : ratAbs (t - t) = 0 := by simp [ratAbs]
  simp only [habs]
  rw [if_neg (by norm_num [EPS])]

/-- `forward_frame` on a complete frame that parses to a value which already
carries a `group_id`: the value is time-adjusted, minimised, reserialised
and appended. -/
theorem forward_frame_parsed (parse : List Char → Option Json) (m : MuxSt)
    (gid : String) (lastT : Option ℚ) (payload : List Char) (v va v2 : Json)
    (ta : Option ℚ) (hpne : payload ≠ [])
    (hP : parse payload = some v)
    (hg : (jGet v "group_id").isNone = false)
    (ht : adjustTime lastT v = (va, ta))
    (hm : qvis_minimize va = some v2) :
    forward_frame parse m gid lastT (RSc :: (payload ++ [LFc])) =
      (m.append_record (RSc :: (serializeJson v2 ++ [LFc])), ta) := by
  have hlast : (RSc :: (payload ++ [LFc])).getLast? = some LFc := by
    rw [show RSc :: (payload ++ [LFc]) = (RSc :: payload) ++ [LFc] from rfl]
    exact List.getLast?_concat _
  have hcond : 3 ≤ (RSc :: (payload ++ [LFc])).length ∧
      (RSc :: (payload ++ [LFc])).head? = some RSc ∧
      (RSc :: (payload ++ [LFc])).getLast? = some LFc := by
    refine ⟨?_, rfl, hlast⟩
    have : payload.length ≠ 0 := fun hc => hpne (List.length_eq_zero.mp hc)
    simp only [List.length_cons, List.length_append, List.length_singleton]
    omega
  have hpl : ((RSc :: (payload ++ [LFc])).drop 1).dropLast = payload := by simp
  unfold forward_frame
  rw [if_pos hcond, hpl, hP]
  simp only [hg, Bool.false_eq_true, if_false, ite_false, ht, hm]

/-- A loglevel event for group `g` at time `t` (the kind of record the qlog
library emits, keys in BTreeMap order). -/
def evJ (t : ℚ) : Json :=
  Json.obj [("group_id", Json.str "g"), ("name", Json.str "loglevel:info"),
    ("time", Json.num t)]

/-- The serialised `RS … LF` frame of `evJ t`. -/
def evFrame (t : ℚ) : Chunk :=
  RSc :: (serializeJson (evJ t) ++ [LFc])

/-- A parser agreeing with any correct JSON parser on the two frames the
counterexample uses. -/
def parseC5 : List Char → Option Json :=
  fun p =>
    if p = serializeJson (evJ 5) then some (evJ 5)
    else if p = serializeJson (evJ 3) then some (evJ 3) else none

set_option maxRecDepth 100000 in
/-- Counterexample to claim C5: two connections (two per-connection
adapters) emit events for the same `group_id` `g`, the first at time 5, the
second at time 3.  Each adapter's own monotonicity state is fresh, so
neither rewrites its time, and the multiplexer forwards both records
byte-identically: the output file carries time 5 and then time 3 for the
same `group_id` — the multiplexer enforces no global per-`group_id`
monotonicity on forwarded records (only `append_event`, its own channel,
does). -/
theorem mux_forwards_nonmonotonic_times_cex :
    (pcsWrite parseC5
        (pcsWrite parseC5 (QlogMux.new 0) (PerConnSqlog.new "g")
          (evFrame 5)).1
        (PerConnSqlog.new "g") (evFrame 3)).1.outChunks =
      [headerFrame 0, evFrame 5, evFrame 3] ∧
    jGet (evJ 5) "time" = some (Json.num 5) ∧
    jGet (evJ 3) "time" = some (Json.num 3) ∧
    jGet (evJ 5) "group_id" = some (Json.str "g") ∧
    jGet (evJ 3) "group_id" = some (Json.str "g") ∧
    ¬ ((5 : ℚ) < 3) := by
  refine ⟨?_, rfl, rfl, rfl, rfl, by norm_num⟩
  have hff1 : forward_frame parseC5 (QlogMux.new 0) "g" none
      (RSc :: (serializeJson (evJ 5) ++ [LFc])) =
      ((QlogMux.new 0).append_record (RSc :: (serializeJson (evJ 5) ++ [LFc])),
       some 5) :=
    forward_frame_parsed parseC5 (QlogMux.new 0) "g" none _ (evJ 5) (evJ 5)
      (evJ 5) (some 5) (by decide) rfl rfl (adjustTime_none (evJ 5) 5 rfl) rfl
  have hff2 : forward_frame parseC5
      ((QlogMux.new 0).append_record (RSc :: (serializeJson (evJ 5) ++ [LFc])))
      "g" none (RSc :: (serializeJson (evJ 3) ++ [LFc])) =
      (((QlogMux.new 0).append_record
          (RSc :: (serializeJson (evJ 5) ++ [LFc]))).append_record
        (RSc :: (serializeJson (evJ 3) ++ [LFc])), some 3) :=
    forward_frame_parsed parseC5 _ "g" none _ (evJ 3) (evJ 3) (evJ 3) (some 3)
      (by decide) rfl rfl (adjustTime_none (evJ 3) 3 rfl) rfl
  have h1 := pcsWrite_single_frame parseC5 (QlogMux.new 0) "g" none
    (serializeJson (evJ 5)) (by decide)
  show (pcsWrite parseC5
      (pcsWrite parseC5 (QlogMux.new 0)
        { gid := "g", last_t := none, buf := [] } (evFrame 5)).1
      { gid := "g", last_t := none, buf := [] } (evFrame 3)).1.outChunks = _
  simp only [evFrame]
  rw [h1, hff1]
  rw [pcsWrite_single_frame parseC5
    ((QlogMux.new 0).append_record (RSc :: (serializeJson (evJ 5) ++ [LFc])))
    "g" none (serializeJson (evJ 3)) (by decide)]
  rw [hff2]
  rfl

/-- A record that passes the header detector is appended to the output file
byte-identically (when it fits the current file's remaining budget; with a
full file it is still written whole, into the fresh file, by
`rotating_writer_whole_buffer`). -/
theorem append_record_appends (m : MuxSt) (r : Chunk)
    (hh : is_header_frame r = false) (hne : r ≠ [])
    (hfit : m.rw.size + r.length ≤ m.rw.maxBytes) :
    (m.append_record r).outChunks = m.outChunks ++ [r] := by
  unfold MuxSt.append_record
  rw [if_neg (by simp [hh])]
  unfold MuxSt.outChunks RotWriter.write
  rw [if_neg hne, if_neg (by omega)]
  simp only []
  rw [fsLookup_fsAppend_self]
  simp [MuxSt.outChunks]

theorem lookupT_insertT_self (l : List (String × ℚ)) (g : String) (t : ℚ) :
    lookupT (insertT l g t) g = some t := by
  simp [lookupT, insertT, List.find?]

/-- Amended claim C5: (i) a per-connection adapter whose previous time is
`prev` rewrites a parsed time `t ≤ prev` to `prev + 1e-6` (and remembers
it), and leaves `t > prev` untouched; (ii) the multiplexer appends every
forwarded non-header record byte-identically — it performs no time
adjustment of its own on forwarded records; (iii) per-`group_id`
monotonicity at the multiplexer exists only on its own `append_event`
channel, which bumps a non-increasing event time to `previous + 1e-6`. -/
theorem adapter_monotonic_mux_forwards_verbatim
    (fields : List (String × Json)) (t prev : ℚ) (v : Json) (m : MuxSt)
    (r : Chunk) (m2 : MuxSt) (now : ℚ) (g nm : String) (d : Json)
    (prev2 : ℚ) :
    (objGet fields "time" = some (Json.num t) → t ≤ prev →
      adjustTime (some prev) (Json.obj fields) =
        (Json.obj (objInsert fields "time" (Json.num (prev + MICRO))),
         some (prev + MICRO))) ∧
    ((jGet v "time").bind jAsNum = some t → prev < t →
      adjustTime (some prev) v = (v, some t)) ∧
    (is_header_frame r = false → r ≠ [] →
      m.rw.size + r.length ≤ m.rw.maxBytes →
      (m.append_record r).outChunks = m.outChunks ++ [r]) ∧
    (lookupT m2.last_t g = some prev2 →
      lookupT (m2.append_event now g nm d).last_t g =
        some (if now ≤ prev2 then prev2 + MICRO else now)) := by
  refine ⟨?_, ?_, fun hh hne hfit => append_record_appends m r hh hne hfit, ?_⟩
  · intro ht hle
    unfold adjustTime
    simp only [jGet, ht, jAsNum, Option.bind]
    rw [if_pos hle]
    have hpos : ¬ (prev + MICRO - t < 0) := by
      simp only [MICRO]
      intro hc
      nlinarith
    have habs : ratAbs (prev + MICRO - t) = prev + MICRO - t := by
      simp [ratAbs, hpos]
    rw [habs, if_pos (by simp only [EPS, MICRO]; nlinarith)]
    rfl
  · intro ht hlt
    unfold adjustTime
    rw [ht]
    simp only []
    rw [if_neg (not_le.mpr hlt)]
    have habs : ratAbs (t - t) = 0 := by simp [ratAbs]
    rw [habs, if_neg (by norm_num [EPS])]
  · intro hl
    unfold MuxSt.append_event
    simp only [hl]
    exact lookupT_insertT_self ..

/-- Closed witness for `adapter_monotonic_mux_forwards_verbatim`: previous
time 7, incoming time 3 — the adapter rewrites to `7 + 1e-6`. -/
theorem adapter_monotonic_mux_forwards_verbatim_witness :
    objGet [("time", Json.num 3)] "time" = some (Json.num 3) ∧
    adjustTime (some 7) (Json.obj [("time", Json.num 3)]) =
      (Json.obj (objInsert [("time", Json.num 3)] "time"
        (Json.num (7 + MICRO))), some (7 + MICRO)) := by
  refine ⟨rfl, ?_⟩
  exact (adapter_monotonic_mux_forwards_verbatim [("time", Json.num 3)] 3 7
    Json.null (QlogMux.new 0) [] (QlogMux.new 0) 0 "g" "n" Json.null 0).1
    rfl (by norm_num)

/-! ## Claim C6: header detection is bounded to the first 64 KiB

`is_header_frame` scans only `frame[..min(len, 64*1024)]`.  A JSON-SEQ file
header whose `"qlog_format"` key is serialised beyond that bound — for
example behind a long `description` string — escapes detection.  The lemmas
below analyse `memmem` over a concrete prefix followed by a long run of
`'z'` characters. -/

theorem escChar_z : escChar 'z' = ['z'] := by decide

theorem escapeList_replicate_z (n : ℕ) :
    escapeList (List.replicate n 'z') = List.replicate n 'z' := by
  induction n with
  | zero => rfl
  | succ k ih =>
      show escapeList ('z' :: List.replicate k 'z') = _
      simp only [escapeList, List.flatMap_cons] at *
      rw [escChar_z, ih]
      rfl

theorem isPrefixOf_head_ne (c a : Char) (cs l : List Char) (h : ¬ c = a) :
    (c :: cs).isPrefixOf (a :: l) = false := by
  simp [List.isPrefixOf, h]

theorem isPrefixOf_replicate_head_ne (c z : Char) (cs : List Char)
    (h : ¬ c = z) (n : ℕ) :
    (c :: cs).isPrefixOf (List.replicate n z) = false := by
  cases n with
  | zero => rfl
  | succ k => exact isPrefixOf_head_ne c z cs _ h

theorem memmem_cons_false (a : Char) (l : List Char) (c : Char)
    (cs : List Char) (h1 : (c :: cs).isPrefixOf (a :: l) = false)
    (h2 : memmem l (c :: cs) = false) : memmem (a :: l) (c :: cs) = false := by
  unfold memmem
  split
  · rfl
  · rw [h1, h2]
    rfl

theorem memmem_replicate_false (z c : Char) (cs : List Char) (h : ¬ c = z) :
    ∀ n, memmem (List.replicate n z) (c :: cs) = false := by
  intro n
  induction n with
  | zero => rfl
  | succ k ih =>
      rw [List.replicate_succ]
      exact memmem_cons_false z _ c cs (isPrefixOf_head_ne c z cs _ h) ih

theorem isPrefixOf_cons_same (c : Char) (cs l : List Char) :
    (c :: cs).isPrefixOf (c :: l) = cs.isPrefixOf l := by
  simp [List.isPrefixOf]

/-- `memmem` misses any needle of the form `'"' c2 …` (with `c2` distinct
from `d`, `:` and `z`) in the scan region
`RS { "description":"` + `z`-run: none of the quote positions is followed by
`c2`, and the `z`-run cannot start the needle. -/
theorem memmem_pre_z_false (c2 : Char) (cs : List Char)
    (hd : ¬ c2 = 'd') (hc : ¬ c2 = ':') (hz : ¬ c2 = 'z') (n : ℕ) :
    memmem
      ([RSc, '\x7b', '"', 'd', 'e', 's', 'c', 'r', 'i', 'p', 't', 'i', 'o',
        'n', '"', ':', '"'] ++ List.replicate n 'z')
      ('"' :: c2 :: cs) = false := by
  refine memmem_cons_false _ _ _ _ (isPrefixOf_head_ne _ _ _ _ (by decide)) ?_
  refine memmem_cons_false _ _ _ _ (isPrefixOf_head_ne _ _ _ _ (by decide)) ?_
  refine memmem_cons_false _ _ _ _ ?_ ?_
  · rw [isPrefixOf_cons_same]
    exact isPrefixOf_head_ne _ _ _ _ hd
  refine memmem_cons_false _ _ _ _ (isPrefixOf_head_ne _ _ _ _ (by decide)) ?_
  refine memmem_cons_false _ _ _ _ (isPrefixOf_head_ne _ _ _ _ (by decide)) ?_
  refine memmem_cons_false _ _ _ _ (isPrefixOf_head_ne _ _ _ _ (by decide)) ?_
  refine memmem_cons_false _ _ _ _ (isPrefixOf_head_ne _ _ _ _ (by decide)) ?_
  refine memmem_cons_false _ _ _ _ (isPrefixOf_head_ne _ _ _ _ (by decide)) ?_
  refine memmem_cons_false _ _ _ _ (isPrefixOf_head_ne _ _ _ _ (by decide)) ?_
  refine memmem_cons_false _ _ _ _ (isPrefixOf_head_ne _ _ _ _ (by decide)) ?_
  refine memmem_cons_false _ _ _ _ (isPrefixOf_head_ne _ _ _ _ (by decide)) ?_
  refine memmem_cons_false _ _ _ _ (isPrefixOf_head_ne _ _ _ _ (by decide)) ?_
  refine memmem_cons_false _ _ _ _ (isPrefixOf_head_ne _ _ _ _ (by decide)) ?_
  refine memmem_cons_false _ _ _ _ (isPrefixOf_head_ne _ _ _ _ (by decide)) ?_
  refine memmem_cons_false _ _ _ _ ?_ ?_
  · rw [isPrefixOf_cons_same]
    exact isPrefixOf_head_ne _ _ _ _ hc
  refine memmem_cons_false _ _ _ _ (isPrefixOf_head_ne _ _ _ _ (by decide)) ?_
  refine memmem_cons_false _ _ _ _ ?_ ?_
  · rw [isPrefixOf_cons_same]
    exact isPrefixOf_replicate_head_ne _ _ _ hz n
  exact memmem_replicate_false 'z' '"' _ (by decide) n

/-- 70 000 `z` bytes — a long (but legal) header `description`. -/
def zRun : List Char := List.replicate 70000 'z'

/-- A JSON-SEQ file header whose `"qlog_format"` key is serialised beyond
the 64 KiB detector bound, behind the long description (keys in BTreeMap
order). -/
def bigHeaderJ : Json :=
  .obj [("description", .str (String.mk zRun)),
        ("qlog_format", .str "JSON-SEQ")]

/-- `bigHeaderJ` after the adapter injects `group_id = "g"` (sorted
between the other two keys). -/
def bigHeaderInjected : Json :=
  .obj [("description", .str (String.mk zRun)),
        ("group_id", .str "g"),
        ("qlog_format", .str "JSON-SEQ")]

/-- Serialised bytes following the `z`-run in `bigHeaderInjected`. -/
def bigSuf : List Char :=
  '"' :: ',' :: ("\"group_id\":\"g\",\"qlog_format\":\"JSON-SEQ\"".data ++
    ['\x7d'])

/-- The reserialised frame the adapter hands to the multiplexer. -/
def bigOut : Chunk := RSc :: (serializeJson bigHeaderInjected ++ [LFc])

/-- Pure list reshaping (generic in the long run `z` and the suffix `s`, so
no proof step ever walks the 70 000-element list). -/
theorem reshape_big (z s : List Char) :
    '\x7b' :: ((('"' :: (['d', 'e', 's', 'c', 'r', 'i', 'p', 't', 'i', 'o',
        'n'] ++ '"' :: ':' :: ('"' :: (z ++ ['"'])))) ++ ',' :: s) ++
        ['\x7d']) =
      ['\x7b', '"', 'd', 'e', 's', 'c', 'r', 'i', 'p', 't', 'i', 'o', 'n',
        '"', ':', '"'] ++ (z ++ ('"' :: ',' :: (s ++ ['\x7d']))) := by
  simp [List.cons_append, List.append_assoc]

theorem reshape_frame (l : List Char) (z s : List Char) :
    RSc :: ((l ++ (z ++ s)) ++ [LFc]) = (RSc :: l) ++ (z ++ (s ++ [LFc])) := by
  simp [List.cons_append, List.append_assoc]

theorem serialize_bigHeaderInjected :
    serializeJson bigHeaderInjected =
      ['\x7b', '"', 'd', 'e', 's', 'c', 'r', 'i', 'p', 't', 'i', 'o', 'n',
        '"', ':', '"'] ++ (zRun ++ bigSuf) := by
  have hz : escapeList zRun = zRun := escapeList_replicate_z 70000
  show '\x7b' :: (serializeObj
      [("description", Json.str (String.mk zRun)),
       ("group_id", Json.str "g"),
       ("qlog_format", Json.str "JSON-SEQ")] ++ ['\x7d']) = _
  rw [show serializeObj
      [("description", Json.str (String.mk zRun)),
       ("group_id", Json.str "g"),
       ("qlog_format", Json.str "JSON-SEQ")] =
      ('"' :: (escapeList "description".data ++ '"' :: ':' ::
        ('"' :: (escapeList zRun ++ ['"'])))) ++
      ',' :: serializeObj
        [("group_id", Json.str "g"), ("qlog_format", Json.str "JSON-SEQ")]
      from rfl]
  rw [hz,
    show escapeList "description".data =
      ['d', 'e', 's', 'c', 'r', 'i', 'p', 't', 'i', 'o', 'n'] from rfl,
    show serializeObj
      [("group_id", Json.str "g"), ("qlog_format", Json.str "JSON-SEQ")] =
      "\"group_id\":\"g\",\"qlog_format\":\"JSON-SEQ\"".data from rfl,
    show bigSuf = '"' :: ',' ::
      ("\"group_id\":\"g\",\"qlog_format\":\"JSON-SEQ\"".data ++ ['\x7d'])
      from rfl]
  exact reshape_big zRun _

theorem bigOut_decomp :
    bigOut =
      [RSc, '\x7b', '"', 'd', 'e', 's', 'c', 'r', 'i', 'p', 't', 'i', 'o',
        'n', '"', ':', '"'] ++ (zRun ++ (bigSuf ++ [LFc])) := by
  show RSc :: (serializeJson bigHeaderInjected ++ [LFc]) = _
  rw [serialize_bigHeaderInjected]
  exact reshape_frame _ zRun bigSuf

/-- The detector misses `bigOut`: its quoted key substrings lie beyond the
64 KiB scan prefix, which is `RS { "description":"` followed by `z`s. -/
theorem is_header_frame_bigOut_false : is_header_frame bigOut = false := by
  have hlen17 : ([RSc, '\x7b', '"', 'd', 'e', 's', 'c', 'r', 'i', 'p', 't',
      'i', 'o', 'n', '"', ':', '"'] : List Char).length = 17 := by decide
  have hzlen : zRun.length = 70000 := List.length_replicate 70000 'z'
  have htake : (([RSc, '\x7b', '"', 'd', 'e', 's', 'c', 'r', 'i', 'p', 't',
        'i', 'o', 'n', '"', ':', '"'] : List Char) ++
        (zRun ++ (bigSuf ++ [LFc]))).take (64 * 1024) =
      [RSc, '\x7b', '"', 'd', 'e', 's', 'c', 'r', 'i', 'p', 't', 'i', 'o',
        'n', '"', ':', '"'] ++ List.replicate 65519 'z' := by
    rw [List.take_append_eq_append_take,
      List.take_of_length_le (by rw [hlen17]; norm_num), hlen17,
      show 64 * 1024 - 17 = 65519 from by norm_num,
      List.take_append_eq_append_take,
      show zRun.take 65519 = List.replicate 65519 'z' from by
        rw [show zRun = List.replicate 70000 'z' from rfl,
          List.take_replicate]
        norm_num,
      hzlen, show 65519 - 70000 = 0 from by norm_num, List.take_zero,
      List.append_nil]
  unfold is_header_frame
  rw [bigOut_decomp]
  rw [if_neg (by simp)]
  show (memmem ((([RSc, '\x7b', '"', 'd', 'e', 's', 'c', 'r', 'i', 'p', 't',
      'i', 'o', 'n', '"', ':', '"'] : List Char) ++
      (zRun ++ (bigSuf ++ [LFc]))).take (64 * 1024)) qfNeedle ||
    memmem ((([RSc, '\x7b', '"', 'd', 'e', 's', 'c', 'r', 'i', 'p', 't',
      'i', 'o', 'n', '"', ':', '"'] : List Char) ++
      (zRun ++ (bigSuf ++ [LFc]))).take (64 * 1024)) fsNeedle) = false
  rw [htake,
    show qfNeedle = '"' :: 'q' :: "log_format\"".data from rfl,
    show fsNeedle = '"' :: 'f' :: "ile_schema\"".data from rfl,
    memmem_pre_z_false 'q' _ (by decide) (by decide) (by decide) 65519,
    memmem_pre_z_false 'f' _ (by decide) (by decide) (by decide) 65519]
  rfl

/-- `forward_frame` on a complete frame that parses to a value without a
`group_id`: the id is injected, the value time-adjusted, minimised,
reserialised and appended. -/
theorem forward_frame_parsed_inject (parse : List Char → Option Json)
    (m : MuxSt) (gid : String) (lastT : Option ℚ) (payload : List Char)
    (v va v2 : Json) (ta : Option ℚ) (hpne : payload ≠ [])
    (hP : parse payload = some v)
    (hg : (jGet v "group_id").isNone = true)
    (ht : adjustTime lastT (jInsertIfObj v "group_id" (.str gid)) = (va, ta))
    (hm : qvis_minimize va = some v2) :
    forward_frame parse m gid lastT (RSc :: (payload ++ [LFc])) =
      (m.append_record (RSc :: (serializeJson v2 ++ [LFc])), ta) := by
  have hlast : (RSc :: (payload ++ [LFc])).getLast? = some LFc := by
    rw [show RSc :: (payload ++ [LFc]) = (RSc :: payload) ++ [LFc] from rfl]
    exact List.getLast?_concat _
  have hcond : 3 ≤ (RSc :: (payload ++ [LFc])).length ∧
      (RSc :: (payload ++ [LFc])).head? = some RSc ∧
      (RSc :: (payload ++ [LFc])).getLast? = some LFc := by
    refine ⟨?_, rfl, hlast⟩
    have : payload.length ≠ 0 := fun hc => hpne (List.length_eq_zero.mp hc)
    simp only [List.length_cons, List.length_append, List.length_singleton]
    omega
  have hpl : ((RSc :: (payload ++ [LFc])).drop 1).dropLast = payload := by simp
  unfold forward_frame
  rw [if_pos hcond, hpl, hP]
  simp only [hg, if_true, ht, hm]

/-- A parser agreeing with any correct JSON parser on the oversized header
frame. -/
def bigParse : List Char → Option Json :=
  fun p => if p = serializeJson bigHeaderJ then some bigHeaderJ else none

set_option maxRecDepth 100000 in
/-- Counterexample to claim C6: `bigHeaderJ` is a JSON-SEQ file header (it
has the key `"qlog_format"`), but its serialisation puts that key beyond
the 64 KiB prefix `is_header_frame` scans.  The adapter parses it, injects
`group_id`, reserialises it and hands it to the multiplexer, which fails to
detect it and appends it — so the output file contains the multiplexer's
own header frame (which the detector does flag) and then this second
header frame. -/
theorem qlog_second_header_frame_cex :
    jGet bigHeaderJ "qlog_format" = some (Json.str "JSON-SEQ") ∧
    forward_frame bigParse (QlogMux.new 0) "g" none
        (RSc :: (serializeJson bigHeaderJ ++ [LFc])) =
      ((QlogMux.new 0).append_record bigOut, none) ∧
    ((QlogMux.new 0).append_record bigOut).outChunks =
      [headerFrame 0, bigOut] ∧
    jGet bigHeaderInjected "qlog_format" = some (Json.str "JSON-SEQ") ∧
    is_header_frame (headerFrame 0) = true ∧
    is_header_frame bigOut = false := by
  have hpne : serializeJson bigHeaderJ ≠ [] := by
    show '\x7b' :: (serializeObj _ ++ ['\x7d']) ≠ []
    exact List.cons_ne_nil _ _
  have hP : bigParse (serializeJson bigHeaderJ) = some bigHeaderJ := by
    unfold bigParse
    rw [if_pos rfl]
  have hinj : jInsertIfObj bigHeaderJ "group_id" (Json.str "g") =
      bigHeaderInjected := by rfl
  have hadj : adjustTime none bigHeaderInjected = (bigHeaderInjected, none) :=
    rfl
  have hmin : qvis_minimize bigHeaderInjected = some bigHeaderInjected := rfl
  have hff := forward_frame_parsed_inject bigParse (QlogMux.new 0) "g" none
    (serializeJson bigHeaderJ) bigHeaderJ bigHeaderInjected bigHeaderInjected
    none hpne hP rfl (by rw [hinj, hadj]) hmin
  have hsuflen : bigSuf.length = 42 := by decide
  have hblen : bigOut.length = 70060 := by
    rw [bigOut_decomp, List.length_append, List.length_append,
      List.length_append,
      show ([RSc, '\x7b', '"', 'd', 'e', 's', 'c', 'r', 'i', 'p', 't', 'i',
        'o', 'n', '"', ':', '"'] : List Char).length = 17 from rfl,
      show zRun.length = 70000 from List.length_replicate 70000 'z', hsuflen,
      show ([LFc] : List Char).length = 1 from rfl]
  have hsize : (QlogMux.new 0).rw.size ≤ 1000 := by decide
  have hmax : (QlogMux.new 0).rw.maxBytes = 268435456 := by rfl
  have happ := append_record_appends (QlogMux.new 0) bigOut
    is_header_frame_bigOut_false
    (by rw [bigOut_decomp]; exact List.cons_ne_nil _ _)
    (by rw [hblen, hmax]; omega)
  refine ⟨rfl, hff, ?_, rfl, by decide, is_header_frame_bigOut_false⟩
  rw [happ]
  rfl

theorem fsLookup_fsRemove_self (fs : FsM) (n : String) :
    fsLookup (fsRemove fs n) n = none := by
  induction fs with
  | nil => rfl
  | cons e rest ih =>
      rw [fsRemove_cons]
      by_cases he : e.1 = n
      · rw [if_pos he]
        exact ih
      · rw [if_neg he, fsLookup_cons, if_neg he]
        exact ih

theorem fsMem_exists_lookup (fs : FsM) (n : String) (h : fsMem fs n = true) :
    ∃ v, fsLookup fs n = some v := by
  unfold fsMem at h
  unfold fsLookup
  cases hf : fs.find? (fun e => e.1 = n) with
  | none => rw [hf] at h; cases h
  | some e => exact ⟨e.2, rfl⟩

theorem fsMem_fsSet_self (fs : FsM) (n : String) (v : List Chunk) :
    fsMem (fsSet fs n v) n = true := by
  simp [fsMem, fsSet, List.find?]

theorem chunk_head_append (l r : List Chunk) (h : l ≠ []) :
    (l ++ r).head? = l.head? := by
  cases l with
  | nil => exact absurd rfl h
  | cons a t => rfl

theorem chunk_tail_append (l r : List Chunk) (h : l ≠ []) :
    (l ++ r).tail = l.tail ++ r := by
  cases l with
  | nil => exact absurd rfl h
  | cons a t => rfl

/-- Every file in the directory starts with the multiplexer's header frame
and carries no further detector-flagged frame. -/
def filesOk (rt : ℚ) (fs : FsM) : Prop :=
  ∀ name chunks, fsLookup fs name = some chunks →
    chunks.head? = some (headerFrame rt) ∧
    ∀ c ∈ chunks.tail, is_header_frame c = false

theorem filesOk_fsSet (rt : ℚ) (fs : FsM) (n : String) (v : List Chunk)
    (h : filesOk rt fs) (hv : v.head? = some (headerFrame rt) ∧
      ∀ c ∈ v.tail, is_header_frame c = false) :
    filesOk rt (fsSet fs n v) := by
  intro name chunks hc
  by_cases hn : name = n
  · subst hn
    rw [fsLookup_fsSet_self] at hc
    cases hc
    exact hv
  · rw [fsLookup_fsSet_ne fs n name v hn] at hc
    exact h name chunks hc

theorem filesOk_fsRemove (rt : ℚ) (fs : FsM) (n : String)
    (h : filesOk rt fs) : filesOk rt (fsRemove fs n) := by
  intro name chunks hc
  by_cases hn : name = n
  · subst hn
    rw [fsLookup_fsRemove_self] at hc
    cases hc
  · rw [fsLookup_fsRemove_ne fs n name hn] at hc
    exact h name chunks hc

theorem filesOk_fsAppend (rt : ℚ) (fs : FsM) (n : String) (r : Chunk)
    (h : filesOk rt fs) (hmem : fsMem fs n = true)
    (hr : is_header_frame r = false) : filesOk rt (fsAppend fs n r) := by
  obtain ⟨cs, hcs⟩ := fsMem_exists_lookup fs n hmem
  obtain ⟨hhead, htail⟩ := h n cs hcs
  have hne : cs ≠ [] := by
    intro hc
    subst hc
    cases hhead
  unfold fsAppend
  rw [hcs, Option.getD_some]
  refine filesOk_fsSet rt fs n _ h ⟨?_, ?_⟩
  · rw [chunk_head_append cs [r] hne]
    exact hhead
  · rw [chunk_tail_append cs [r] hne]
    intro c hcmem
    rcases List.mem_append.mp hcmem with hin | hin
    · exact htail c hin
    · rw [List.mem_singleton.mp hin]
      exact hr

/-- The invariant carried across multiplexer operations. -/
def muxHeaderInv (rt : ℚ) (m : MuxSt) : Prop :=
  fsMem m.fs m.rw.base = true ∧
  m.rw.headerChunks = [headerFrame rt] ∧
  filesOk rt m.fs

theorem rotate_preserves (rt : ℚ) (fs : FsM) (w : RotWriter)
    (hOk : filesOk rt fs) (hhc : w.headerChunks = [headerFrame rt]) :
    filesOk rt (RotWriter.rotate fs w).1 ∧
    fsMem (RotWriter.rotate fs w).1 w.base = true ∧
    (RotWriter.rotate fs w).2.1.base = w.base ∧
    (RotWriter.rotate fs w).2.1.headerChunks = w.headerChunks := by
  have hv : w.headerChunks.head? = some (headerFrame rt) ∧
      ∀ c ∈ w.headerChunks.tail, is_header_frame c = false := by
    rw [hhc]
    exact ⟨rfl, by simp⟩
  unfold RotWriter.rotate
  by_cases hb : fsMem fs w.base = true
  · rw [if_pos hb]
    refine ⟨?_, fsMem_fsSet_self .., rfl, rfl⟩
    refine filesOk_fsSet rt _ _ _ ?_ hv
    refine filesOk_fsSet rt _ _ _
      (filesOk_fsRemove rt _ _ (by
        by_cases hnum : fsMem fs (w.base ++ "." ++ toString w.nextIndex) = true
        · rw [if_pos hnum]
          exact filesOk_fsRemove rt _ _ hOk
        · rw [if_neg hnum]
          exact hOk)) ?_
    have hne : ¬ w.base = w.base ++ "." ++ toString w.nextIndex :=
      string_ne_append_suffix w.base "." (toString w.nextIndex) (by decide)
    have hlook : fsLookup
        (if fsMem fs (w.base ++ "." ++ toString w.nextIndex) = true then
          fsRemove fs (w.base ++ "." ++ toString w.nextIndex) else fs)
        w.base = fsLookup fs w.base := by
      by_cases hnum : fsMem fs (w.base ++ "." ++ toString w.nextIndex) = true
      · rw [if_pos hnum]
        exact fsLookup_fsRemove_ne fs _ _ hne
      · rw [if_neg hnum]
    obtain ⟨cs, hcs⟩ := fsMem_exists_lookup fs w.base hb
    rw [hlook, hcs]
    exact hOk w.base cs hcs
  · rw [if_neg hb]
    exact ⟨filesOk_fsSet rt _ _ _ hOk hv, fsMem_fsSet_self .., rfl, rfl⟩

theorem write_preserves (rt : ℚ) (fs : FsM) (w : RotWriter) (r : Chunk)
    (hOk : filesOk rt fs) (hmem : fsMem fs w.base = true)
    (hhc : w.headerChunks = [headerFrame rt])
    (hr : is_header_frame r = false) :
    filesOk rt (RotWriter.write fs w r).1 ∧
    fsMem (RotWriter.write fs w r).1 (RotWriter.write fs w r).2.1.base = true ∧
    (RotWriter.write fs w r).2.1.base = w.base ∧
    (RotWriter.write fs w r).2.1.headerChunks = w.headerChunks := by
  unfold RotWriter.write
  by_cases hnil : r = []
  · rw [if_pos hnil]
    exact ⟨hOk, hmem, rfl, rfl⟩
  · rw [if_neg hnil]
    by_cases hrot : w.maxBytes < w.size + r.length
    · rw [if_pos hrot]
      obtain ⟨h1, h2, h3, h4⟩ := rotate_preserves rt fs w hOk hhc
      refine ⟨?_, ?_, ?_, ?_⟩
      · exact filesOk_fsAppend rt _ _ _ h1 h2 hr
      · show fsMem (fsAppend (RotWriter.rotate fs w).1 w.base r)
            (RotWriter.rotate fs w).2.1.base = true
        rw [h3]
        unfold fsAppend
        exact fsMem_fsSet_self ..
      · exact h3
      · exact h4
    · rw [if_neg hrot]
      refine ⟨filesOk_fsAppend rt _ _ _ hOk hmem hr, ?_, rfl, rfl⟩
      unfold fsAppend
      exact fsMem_fsSet_self ..

theorem append_record_preserves (rt : ℚ) (m : MuxSt) (r : Chunk)
    (h : muxHeaderInv rt m) : muxHeaderInv rt (m.append_record r) := by
  obtain ⟨hmem, hhc, hOk⟩ := h
  unfold MuxSt.append_record
  by_cases hh : is_header_frame r = true
  · rw [if_pos hh]
    exact ⟨hmem, hhc, hOk⟩
  · rw [if_neg hh]
    have hr : is_header_frame r = false := by
      cases hx : is_header_frame r
      · rfl
      · exact absurd hx hh
    obtain ⟨h1, h2, h3, h4⟩ := write_preserves rt m.fs m.rw r hOk hmem hhc hr
    exact ⟨h2, h4.trans hhc, h1⟩

theorem muxHeaderInv_new (rt : ℚ) : muxHeaderInv rt (QlogMux.new rt) := by
  have hfs : (QlogMux.new rt).fs =
      [("quic-lab.sqlog", [headerFrame rt])] := rfl
  refine ⟨by rw [hfs]; rfl, rfl, ?_⟩
  intro name chunks h
  rw [hfs, fsLookup_cons] at h
  by_cases hb : ("quic-lab.sqlog" : String) = name
  · rw [if_pos hb] at h
    cases h
    exact ⟨rfl, by simp⟩
  · rw [if_neg hb] at h
    cases h

theorem muxHeaderInv_foldl (rt : ℚ) (recs : List Chunk) :
    ∀ m, muxHeaderInv rt m →
      muxHeaderInv rt (recs.foldl MuxSt.append_record m) := by
  induction recs with
  | nil => intro m h; exact h
  | cons r rest ih =>
      intro m h
      exact ih _ (append_record_preserves rt m r h)

/-- Amended claim C6: starting from a fresh multiplexer, after forwarding
any sequence of records through `append_record`, every qlog output file
begins with the multiplexer's own JSON-SEQ header frame (written by the
new-file hook, with `qlog_format = "JSON-SEQ"`), and every subsequent frame
in any file fails the 64 KiB-bounded header detector — in particular every
forwarded frame the detector flags as a file header was dropped.  (Header
frames whose key substrings first occur beyond 64 KiB escape the detector;
see the counterexample.) -/
theorem qlog_files_single_header (rt : ℚ) (recs : List Chunk) (name : String)
    (chunks : List Chunk)
    (h : fsLookup (recs.foldl MuxSt.append_record (QlogMux.new rt)).fs name =
      some chunks) :
    chunks.head? = some (headerFrame rt) ∧
    ∀ c ∈ chunks.tail, is_header_frame c = false :=
  (muxHeaderInv_foldl rt recs (QlogMux.new rt) (muxHeaderInv_new rt)).2.2
    name chunks h

/-- Closed witness for `qlog_files_single_header`: the fresh multiplexer's
single file. -/
theorem qlog_files_single_header_witness :
    fsLookup (([] : List Chunk).foldl MuxSt.append_record
        (QlogMux.new 0)).fs "quic-lab.sqlog" = some [headerFrame 0] ∧
    [headerFrame 0].head? = some (headerFrame 0) :=
  ⟨rfl, (qlog_files_single_header 0 [] "quic-lab.sqlog" [headerFrame 0]
    rfl).1⟩
